import Mathlib

/-!
Verification development for the video-playlist-manager repository
(`database.py`, `youtube_playlist_collector.py`, `file_import_tool.py`).

The Python code is shallowly embedded: the SQLite store becomes three
in-memory tables (lists of rows, scanned in rowid order, where
`INSERT OR REPLACE` deletes the conflicting row and appends the fresh one),
the remote YouTube service becomes an explicit request oracle, and the
regular-expression reference extractor becomes a hand-rolled matcher for the
two fixed patterns of `FileImportTool.youtube_patterns`.
-/

namespace VPM

/-! ## Store (database.py)

Rows mirror the three tables created by `YouTubeDatabase.initialize_database`.
Timestamps are represented by their normalized textual form (the string the
program obtains from `datetime.fromisoformat`, see `fromisoformat` below). -/

structure PlaylistRow where
  etag : String
  id : String
  publishedAt : String
  channelId : String
  title : String
  description : String
  itemCount : Int
deriving Repr, DecidableEq

structure PlaylistItemRow where
  etag : String
  id : String
  playlistId : String
  videoId : String
  position : Int
deriving Repr, DecidableEq

structure VideoRow where
  etag : String
  id : String
  title : String
  description : String
  publishedAt : String
  channelId : String
  channelTitle : String
deriving Repr, DecidableEq

/-- The three tables of `youtube_data.db`, in SQLite scan (rowid) order. -/
structure DB where
  playlist : List PlaylistRow
  playlist_item : List PlaylistItemRow
  video : List VideoRow
deriving Repr, DecidableEq

def emptyDB : DB := ⟨[], [], []⟩

/-- `INSERT OR REPLACE` on a table whose PRIMARY KEY is `id`: the conflicting
row (if any) is deleted and the new row is inserted with a fresh, larger
rowid, i.e. at the end of the scan order. -/
def upsertRow {α : Type} (rid : α → String) (t : List α) (r : α) : List α :=
  t.filter (fun q => rid q ≠ rid r) ++ [r]

namespace YouTubeDatabase

/-- `YouTubeDatabase.insert_playlist` (database.py:70-89). -/
def insert_playlist (db : DB) (p : PlaylistRow) : DB :=
  { db with playlist := upsertRow (fun q => q.id) db.playlist p }

/-- `YouTubeDatabase.insert_playlist_item` (database.py:91-108). -/
def insert_playlist_item (db : DB) (r : PlaylistItemRow) : DB :=
  { db with playlist_item := upsertRow (fun q => q.id) db.playlist_item r }

/-- `YouTubeDatabase.insert_video` (database.py:110-129). -/
def insert_video (db : DB) (v : VideoRow) : DB :=
  { db with video := upsertRow (fun q => q.id) db.video v }

/-- `YouTubeDatabase.get_all_playlists` (database.py:131-139):
`SELECT * FROM playlist`. -/
def get_all_playlists (db : DB) : List PlaylistRow :=
  db.playlist

/-- `YouTubeDatabase.get_playlist_items` (database.py:141-149):
`SELECT * FROM playlist_item WHERE playlistId = ?` — note: no ORDER BY. -/
def get_playlist_items (db : DB) (playlist_id : String) : List PlaylistItemRow :=
  db.playlist_item.filter (fun q => q.playlistId = playlist_id)

/-- `YouTubeDatabase.get_video` (database.py:151-160):
`SELECT * FROM video WHERE id = ?`, `fetchone`. -/
def get_video (db : DB) (video_id : String) : Option VideoRow :=
  db.video.find? (fun q => q.id = video_id)

end YouTubeDatabase

/-! ## Record normalization

The collector and the import tool build row dictionaries by direct indexing
into the raw API payload (`item['etag']`, `item['snippet']['title']`, ...).
A raw payload is embedded as a structure of `Option` fields (`none` = the
key is absent); direct indexing of an absent key raises `KeyError`, which we
embed as `Except.error`. -/

structure RawPlaylist where
  etag : Option String
  id : Option String
  publishedAt : Option String
  channelId : Option String
  title : Option String
  description : Option String
  itemCount : Option Int
deriving Repr, DecidableEq

structure RawPlaylistItem where
  etag : Option String
  id : Option String
  videoId : Option String
  position : Option Int
deriving Repr, DecidableEq

structure RawVideo where
  etag : Option String
  id : Option String
  title : Option String
  description : Option String
  publishedAt : Option String
  channelId : Option String
  channelTitle : Option String
deriving Repr, DecidableEq

/-- Direct dictionary indexing: `item[key]`, raising `KeyError` when absent. -/
def getField {α : Type} (v : Option α) (key : String) : Except String α :=
  match v with
  | some x => .ok x
  | none => .error ("KeyError: " ++ key)

/-- `'Z'.replace('Z', '+00:00')` on the character list of the payload string
(embedding of `s.replace('Z', '+00:00')`). -/
def replaceZ : List Char → List Char
  | [] => []
  | c :: cs =>
    if c = 'Z' then '+' :: '0' :: '0' :: ':' :: '0' :: '0' :: replaceZ cs
    else c :: replaceZ cs

/-- Consume exactly `n` decimal digits. -/
def digitsAt : List Char → Nat → Option (List Char)
  | cs, 0 => some cs
  | c :: cs, n + 1 => if c.isDigit then digitsAt cs n else none
  | [], _ + 1 => none

/-- A trailing `+HH:MM` / `-HH:MM` UTC-offset suffix. -/
def offsetPart : List Char → Bool
  | c :: r =>
    (c = '+' || c = '-') &&
      (match digitsAt r 2 with
       | some (':' :: r2) => digitsAt r2 2 = some ([] : List Char)
       | _ => false)
  | [] => false

/-- The time-of-day part `HH[:MM[:SS]]`, optionally followed by an offset. -/
def timePart (cs : List Char) : Bool :=
  match digitsAt cs 2 with
  | none => false
  | some r1 =>
    match r1 with
    | [] => true
    | ':' :: r2 =>
      match digitsAt r2 2 with
      | none => false
      | some r3 =>
        match r3 with
        | [] => true
        | ':' :: r4 =>
          match digitsAt r4 2 with
          | none => false
          | some r5 => r5 = [] || offsetPart r5
        | _ => offsetPart r3
    | _ => offsetPart r1

/-- Shape of the ISO-8601-like strings accepted here:
`YYYY-MM-DD[<sep>HH[:MM[:SS]][±HH:MM]]`. -/
def isoShape (cs : List Char) : Bool :=
  match digitsAt cs 4 with
  | some ('-' :: r1) =>
    (match digitsAt r1 2 with
     | some ('-' :: r2) =>
       (match digitsAt r2 2 with
        | some [] => true
        | some (_ :: r3) => timePart r3
        | none => false)
     | _ => false)
  | _ => false

/-- Model of the library call `datetime.fromisoformat`: it accepts a string
of the fixed textual timestamp shape and fails with `ValueError` otherwise.
The resulting timezone-aware instant is represented by its source string
(the program only ever stores it). Calendar-range validation is not
modelled; the claims only depend on well-formed---malformed distinction. -/
def fromisoformat (s : String) : Except String String :=
  if isoShape s.toList then .ok s
  else .error ("ValueError: Invalid isoformat string: " ++ s)

/-- The `publishedAt` conversion both collectors perform:
`datetime.fromisoformat(raw.replace('Z', '+00:00'))`. -/
def parseTimestamp (raw : String) : Except String String :=
  fromisoformat (replaceZ raw.toList).asString

/-- The playlist dictionary literal of
`YouTubePlaylistCollector.get_all_playlists` (youtube_playlist_collector.py:64-72),
with the `KeyError`/`ValueError` exceptions of direct indexing and
`datetime.fromisoformat` made explicit. -/
def toPlaylist (item : RawPlaylist) : Except String PlaylistRow :=
  match getField item.etag "etag" with
  | .error e => .error e
  | .ok etag =>
    match getField item.id "id" with
    | .error e => .error e
    | .ok id =>
      match getField item.publishedAt "publishedAt" with
      | .error e => .error e
      | .ok praw =>
        match parseTimestamp praw with
        | .error e => .error e
        | .ok pub =>
          match getField item.channelId "channelId" with
          | .error e => .error e
          | .ok channelId =>
            match getField item.title "title" with
            | .error e => .error e
            | .ok title =>
              match getField item.description "description" with
              | .error e => .error e
              | .ok description =>
                match getField item.itemCount "itemCount" with
                | .error e => .error e
                | .ok itemCount =>
                  .ok ⟨etag, id, pub, channelId, title, description, itemCount⟩

/-- The playlist-item dictionary literal of
`YouTubePlaylistCollector.get_playlist_videos` (youtube_playlist_collector.py:98-104). -/
def toPlaylistItem (item : RawPlaylistItem) (playlist_id : String) :
    Except String PlaylistItemRow :=
  match getField item.etag "etag" with
  | .error e => .error e
  | .ok etag =>
    match getField item.id "id" with
    | .error e => .error e
    | .ok id =>
      match getField item.videoId "videoId" with
      | .error e => .error e
      | .ok videoId =>
        match getField item.position "position" with
        | .error e => .error e
        | .ok position =>
          .ok ⟨etag, id, playlist_id, videoId, position⟩

/-- The video dictionary literal shared by
`YouTubePlaylistCollector.get_playlist_videos` (youtube_playlist_collector.py:116-124)
and `FileImportTool.get_video_data` (file_import_tool.py:128-136). -/
def toVideo (item : RawVideo) : Except String VideoRow :=
  match getField item.etag "etag" with
  | .error e => .error e
  | .ok etag =>
    match getField item.id "id" with
    | .error e => .error e
    | .ok id =>
      match getField item.title "title" with
      | .error e => .error e
      | .ok title =>
        match getField item.description "description" with
        | .error e => .error e
        | .ok description =>
          match getField item.publishedAt "publishedAt" with
          | .error e => .error e
          | .ok praw =>
            match parseTimestamp praw with
            | .error e => .error e
            | .ok pub =>
              match getField item.channelId "channelId" with
              | .error e => .error e
              | .ok channelId =>
                match getField item.channelTitle "channelTitle" with
                | .error e => .error e
                | .ok channelTitle =>
                  .ok ⟨etag, id, title, description, pub, channelId, channelTitle⟩

/-- Normalize a list of raw items left to right, stopping at the first
failure (the uncaught exception of the Python `for` loop). -/
def normList {α β : Type} (f : α → Except String β) : List α → Except String (List β)
  | [] => .ok []
  | x :: xs =>
    match f x with
    | .error e => .error e
    | .ok y =>
      match normList f xs with
      | .error e => .error e
      | .ok ys => .ok (y :: ys)

/-! ## Paginated fetcher (youtube_playlist_collector.py)

A remote "list" operation is an oracle from the page token sent
(`None` for the first request) to the response: the page's raw items plus an
optional `nextPageToken`.  Both `get_all_playlists` and `get_playlist_videos`
run the same `while True:` loop; it is embedded once as `paginate`,
parameterized by the per-page body.  The loop carries fuel so that the
embedding is total; an `ok` outcome certifies that the loop exited through
its `break`, i.e. on the first response without a (truthy) token. -/

structure ListResp (α : Type) where
  items : List α
  nextPageToken : Option String
deriving Repr, DecidableEq

/-- Outcome of a pagination run: `ok` = loop broke out normally, `exn` = an
uncaught exception escaped (the local accumulator is lost, the database
state and issued requests remain), `fuelOut` = embedding fuel exhausted.
`reqs` records, in order, the `pageToken` sent with each issued request. -/
inductive FetchOut (α : Type) where
  | ok (db : DB) (acc : List α) (reqs : List (Option String))
  | exn (msg : String) (db : DB) (reqs : List (Option String))
  | fuelOut (db : DB) (reqs : List (Option String))
deriving Repr, DecidableEq

/-- The page body of `get_all_playlists` (youtube_playlist_collector.py:63-74):
for each raw item, normalize it, `insert_playlist` it, and append it to the
local `playlists` list.  A normalization failure propagates, carrying the
database state already reached. -/
def pageInsertPlaylists : List RawPlaylist → DB → List PlaylistRow →
    Except (String × DB) (DB × List PlaylistRow)
  | [], db, acc => .ok (db, acc)
  | item :: rest, db, acc =>
    match toPlaylist item with
    | .error e => .error (e, db)
    | .ok p => pageInsertPlaylists rest (YouTubeDatabase.insert_playlist db p) (acc ++ [p])

/-- The page body of `get_playlist_videos` (youtube_playlist_collector.py:96-126):
for each raw playlist item, normalize and `insert_playlist_item` it, then
immediately issue a single-video lookup (`vidReq`, the
`youtube.videos().list(id=...)` oracle returning the response's `items`);
when that returns an item, normalize and `insert_video` it and append it to
the local `videos` list. -/
def pageInsertItems (vidReq : String → List RawVideo) (playlist_id : String) :
    List RawPlaylistItem → DB → List VideoRow →
    Except (String × DB) (DB × List VideoRow)
  | [], db, acc => .ok (db, acc)
  | item :: rest, db, acc =>
    match toPlaylistItem item playlist_id with
    | .error e => .error (e, db)
    | .ok r =>
      let db1 := YouTubeDatabase.insert_playlist_item db r
      match vidReq r.videoId with
      | [] => pageInsertItems vidReq playlist_id rest db1 acc
      | vitem :: _ =>
        match toVideo vitem with
        | .error e => .error (e, db1)
        | .ok v =>
          pageInsertItems vidReq playlist_id rest
            (YouTubeDatabase.insert_video db1 v) (acc ++ [v])

/-- The shared `while True:` pagination loop
(youtube_playlist_collector.py:54-78 and 87-130): issue the request with the
current token, run the page body, then read `response.get('nextPageToken')`
and `break` if it is falsy (absent or the empty string). -/
def paginate {α β : Type}
    (proc : List α → DB → List β → Except (String × DB) (DB × List β))
    (req : Option String → ListResp α) :
    Nat → Option String → DB → List β → List (Option String) → FetchOut β
  | 0, _, db, _, reqs => .fuelOut db reqs
  | fuel + 1, tok, db, acc, reqs =>
    let resp := req tok
    let reqs2 := reqs ++ [tok]
    match proc resp.items db acc with
    | .error (e, db2) => .exn e db2 reqs2
    | .ok (db2, acc2) =>
      match resp.nextPageToken with
      | some t =>
        if t = "" then .ok db2 acc2 reqs2
        else paginate proc req fuel (some t) db2 acc2 reqs2
      | none => .ok db2 acc2 reqs2

namespace YouTubePlaylistCollector

/-- `YouTubePlaylistCollector.get_all_playlists` (youtube_playlist_collector.py:49-80). -/
def get_all_playlists (req : Option String → ListResp RawPlaylist)
    (fuel : Nat) (db : DB) : FetchOut PlaylistRow :=
  paginate pageInsertPlaylists req fuel none db [] []

/-- `YouTubePlaylistCollector.get_playlist_videos` (youtube_playlist_collector.py:82-132). -/
def get_playlist_videos (req : Option String → ListResp RawPlaylistItem)
    (vidReq : String → List RawVideo) (playlist_id : String)
    (fuel : Nat) (db : DB) : FetchOut VideoRow :=
  paginate (pageInsertItems vidReq playlist_id) req fuel none db [] []

end YouTubePlaylistCollector

/-- A remote listing of pages `pages` chained by the continuation tokens
`toks`, as seen from a run that starts by sending token `tok`: the response
to `tok` holds the first page and the first token of `toks` (truthy, i.e.
non-empty), and so on; the response to the last request carries no token. -/
def ChainedFrom {α : Type} (req : Option String → ListResp α) :
    Option String → List (List α) → List String → Prop
  | tok, [page], [] => req tok = ⟨page, none⟩
  | tok, page :: p2 :: rest, t :: ts =>
    req tok = ⟨page, some t⟩ ∧ t ≠ "" ∧ ChainedFrom req (some t) (p2 :: rest) ts
  | _, _, _ => False

/-! ## Reference extractor (file_import_tool.py:19-56)

`FileImportTool.youtube_patterns` holds two fixed regular expressions:

  1. `https?://(?:www\.)?youtube\.com/watch\?v=([a-zA-Z0-9_-]+)`
  2. `\[.*?\]\(https?://(?:www\.)?youtube\.com/watch\?v=([a-zA-Z0-9_-]+)\)`

`re.findall` scans a line left to right for non-overlapping matches and
returns the content of the single capturing group of each match.  Both
patterns are embedded as explicit matchers over character lists.  The
optional parts `s?` and `(?:www\.)?` are deterministic here because the
literal that follows each of them cannot also begin the optional text, so
greedy matching never needs to backtrack; likewise `[a-zA-Z0-9_-]+` directly
followed by end-of-pattern (or by `\)`, which is not an id character) is a
maximal run. -/

/-- The character class `[a-zA-Z0-9_-]` of both patterns. -/
def idChar (c : Char) : Bool :=
  c.isAlphanum || c = '_' || c = '-'

/-- Match a literal character sequence, returning the remainder. -/
def dropLit : List Char → List Char → Option (List Char)
  | [], cs => some cs
  | _ :: _, [] => none
  | l :: ls, c :: cs => if c = l then dropLit ls cs else none

/-- Maximal run of `idChar` characters and the remainder. -/
def takeIdRun : List Char → List Char × List Char
  | [] => ([], [])
  | c :: cs =>
    if idChar c then
      let p := takeIdRun cs
      (c :: p.1, p.2)
    else ([], c :: cs)

/-- The greedy optional `s` of `https?` (deterministic: the following
literal `://` cannot begin with `s`). -/
def skipS : List Char → List Char
  | 's' :: r => r
  | r => r

/-- The greedy optional `(?:www\.)?` (deterministic: the following literal
begins with `y`). -/
def skipWWW (cs : List Char) : List Char :=
  match dropLit "www.".toList cs with
  | some r => r
  | none => cs

/-- Match `https?://(?:www\.)?youtube\.com/watch\?v=([a-zA-Z0-9_-]+)` at the
head of `cs`; on success return the captured id and the remainder after the
whole match. -/
def matchWatchUrl (cs : List Char) : Option (String × List Char) :=
  match dropLit "http".toList cs with
  | none => none
  | some r1 =>
    match dropLit "://".toList (skipS r1) with
    | none => none
    | some r3 =>
      match dropLit "youtube.com/watch?v=".toList (skipWWW r3) with
      | none => none
      | some r5 =>
        if (takeIdRun r5).1.isEmpty then none
        else some ((takeIdRun r5).1.asString, (takeIdRun r5).2)

/-- The fixed part `\]\(https?://...\?v=([a-zA-Z0-9_-]+)\)` that closes the
markdown pattern (backtracking over the greedy id run is not needed: `)` is
not an id character, so the run is maximal). -/
def mdClose (cs : List Char) : Option (String × List Char) :=
  match dropLit "](".toList cs with
  | none => none
  | some r1 =>
    match matchWatchUrl r1 with
    | none => none
    | some p =>
      match dropLit ")".toList p.2 with
      | none => none
      | some r3 => some (p.1, r3)

/-- The tail of the markdown pattern after the opening `[`: the lazy `.*?`
consumes as few (non-newline) characters as possible before the closing
`mdClose` part matches. -/
def matchMdTail : List Char → Option (String × List Char)
  | [] => none
  | c :: cs =>
    match mdClose (c :: cs) with
    | some res => some res
    | none => if c = '\n' then none else matchMdTail cs

/-- Match `\[.*?\]\(https?://(?:www\.)?youtube\.com/watch\?v=([a-zA-Z0-9_-]+)\)`
at the head of `cs`. -/
def matchMd : List Char → Option (String × List Char)
  | '[' :: cs => matchMdTail cs
  | _ => none

theorem dropLit_length {lit : List Char} :
    ∀ {cs rest : List Char}, dropLit lit cs = some rest →
      rest.length + lit.length = cs.length := by
  induction lit with
  | nil => intro cs rest h; simp [dropLit] at h; simp [h]
  | cons l ls ih =>
    intro cs rest h
    cases cs with
    | nil => simp [dropLit] at h
    | cons c cs =>
      simp only [dropLit] at h
      split at h
      · have := ih h
        simp [List.length_cons] at this ⊢
        omega
      · exact absurd h (by simp)

theorem takeIdRun_length : ∀ cs : List Char,
    (takeIdRun cs).1.length + (takeIdRun cs).2.length = cs.length := by
  intro cs
  induction cs with
  | nil => simp [takeIdRun]
  | cons c cs ih =>
    simp only [takeIdRun]
    split
    · simp only [List.length_cons]
      omega
    · simp

theorem skipS_length (cs : List Char) : (skipS cs).length ≤ cs.length := by
  unfold skipS
  split <;> simp

theorem skipWWW_length (cs : List Char) : (skipWWW cs).length ≤ cs.length := by
  unfold skipWWW
  split
  · rename_i r h
    have := dropLit_length h
    omega
  · exact le_refl _

theorem matchWatchUrl_length {cs : List Char} {p : String × List Char}
    (h : matchWatchUrl cs = some p) : p.2.length < cs.length := by
  unfold matchWatchUrl at h
  split at h
  · exact absurd h (by simp)
  · rename_i r1 h1
    have hl1 := dropLit_length h1
    have hs := skipS_length r1
    split at h
    · exact absurd h (by simp)
    · rename_i r3 h3
      have hl3 := dropLit_length h3
      have hw := skipWWW_length r3
      split at h
      · exact absurd h (by simp)
      · rename_i r5 h5
        have hl5 := dropLit_length h5
        have hrun := takeIdRun_length r5
        split at h
        · exact absurd h (by simp)
        · cases h
          have c1 : "http".toList.length = 4 := rfl
          have c2 : "://".toList.length = 3 := rfl
          have c3 : "youtube.com/watch?v=".toList.length = 20 := rfl
          rw [c1] at hl1
          rw [c2] at hl3
          rw [c3] at hl5
          show (takeIdRun r5).2.length < cs.length
          omega

theorem mdClose_length {cs : List Char} {p : String × List Char}
    (h : mdClose cs = some p) : p.2.length < cs.length := by
  unfold mdClose at h
  split at h
  · exact absurd h (by simp)
  · rename_i r1 h1
    have hl1 := dropLit_length h1
    split at h
    · exact absurd h (by simp)
    · rename_i q h2
      have hl2 := matchWatchUrl_length h2
      split at h
      · exact absurd h (by simp)
      · rename_i r3 h3
        have hl3 := dropLit_length h3
        cases h
        have c1 : "](".toList.length = 2 := rfl
        have c2 : ")".toList.length = 1 := rfl
        rw [c1] at hl1
        rw [c2] at hl3
        show r3.length < cs.length
        omega

theorem matchMdTail_length : ∀ (cs : List Char) {p : String × List Char},
    matchMdTail cs = some p → p.2.length < cs.length := by
  intro cs
  induction cs with
  | nil => intro p h; simp [matchMdTail] at h
  | cons c cs ih =>
    intro p h
    simp only [matchMdTail] at h
    split at h
    · rename_i res heq
      cases h
      exact mdClose_length heq
    · split at h
      · exact absurd h (by simp)
      · have := ih h
        simp only [List.length_cons]
        omega

theorem matchMd_length {cs : List Char} {p : String × List Char}
    (h : matchMd cs = some p) : p.2.length < cs.length := by
  unfold matchMd at h
  split at h
  · have := matchMdTail_length _ h
    simp only [List.length_cons]
    omega
  · exact absurd h (by simp)

/-- `re.findall(pattern1, line)`: left-to-right, non-overlapping scan.  The
scan recurses on fuel so that it is structurally recursive (and therefore
evaluates inside the kernel); each step consumes at least one character
(`matchWatchUrl_length`), so fuel equal to the string length is never
exhausted before the scan finishes. -/
def findAll1Go : Nat → List Char → List String
  | 0, _ => []
  | _ + 1, [] => []
  | fuel + 1, c :: cs =>
    match matchWatchUrl (c :: cs) with
    | some p => p.1 :: findAll1Go fuel p.2
    | none => findAll1Go fuel cs

def findAll1 (cs : List Char) : List String :=
  findAll1Go cs.length cs

/-- `re.findall(pattern2, line)`: left-to-right, non-overlapping scan (same
fuel discipline, justified by `matchMd_length`). -/
def findAll2Go : Nat → List Char → List String
  | 0, _ => []
  | _ + 1, [] => []
  | fuel + 1, c :: cs =>
    match matchMd (c :: cs) with
    | some p => p.1 :: findAll2Go fuel p.2
    | none => findAll2Go fuel cs

def findAll2 (cs : List Char) : List String :=
  findAll2Go cs.length cs

/-- `video_ids.update(...)` on a Python set, observed as an
insertion-ordered duplicate-free list: add one element if absent. -/
def insertId (ids : List String) (i : String) : List String :=
  if i ∈ ids then ids else ids ++ [i]

/-- Add every element of `new` to the set. -/
def insertAll (ids new : List String) : List String :=
  new.foldl insertId ids

/-- One iteration of the line loop of `extract_video_ids`
(file_import_tool.py:46-50): apply both patterns of `youtube_patterns` to
the line and add all their matches to the set. -/
def extractLine (ids : List String) (line : String) : List String :=
  insertAll (insertAll ids (findAll1 line.toList)) (findAll2 line.toList)

/-- What the file system yields for a path: the path does not exist
(`os.path.exists` is false), opening/reading raises (caught by the
`except Exception` handler), or the file's lines (as iterated by
`for line in file`). -/
inductive FileInput where
  | missing
  | unreadable
  | readable (lines : List String)

/-- `FileImportTool.extract_video_ids` (file_import_tool.py:27-56), over an
explicit file system `fs`.  Returns the id set together with the printed
diagnostics; a missing or unreadable file yields the empty set plus a
diagnostic (a read error discards any partially collected ids). -/
def extract_video_ids (fs : String → FileInput) (file_path : String) :
    List String × List String :=
  match fs file_path with
  | .missing => ([], ["Error: File not found: " ++ file_path])
  | .unreadable => ([], ["Error reading file " ++ file_path])
  | .readable ls => (ls.foldl extractLine [], [])

namespace FileImportTool

/-- `FileImportTool.get_video_data` (file_import_tool.py:105-144): issue the
single-video lookup `vidReq` (the `youtube.videos().list(id=...)` oracle
returning the response's `items`); an empty response or a normalization
failure is caught and turned into `None` plus a printed diagnostic. -/
def get_video_data (vidReq : String → List RawVideo) (video_id : String) :
    Option VideoRow × List String :=
  match vidReq video_id with
  | [] => (none, ["Video with ID " ++ video_id ++ " not found on YouTube"])
  | item :: _ =>
    match toVideo item with
    | .ok v => (some v, [])
    | .error e => (none, ["Error fetching video data for ID " ++ video_id ++ ": " ++ e])

/-- Result of an import run: the `added_videos` list, the database state,
the printed diagnostics, and the ids for which a remote lookup was issued
(in order, with multiplicity). -/
structure ImportOut where
  added : List VideoRow
  db : DB
  diags : List String
  fetched : List String
deriving Repr, DecidableEq

/-- The id loop of `FileImportTool.process_file` (file_import_tool.py:71-85):
for each id, query the store; if absent, fetch via `get_video_data`, and on
success `insert_video` it and append it to `added_videos`. -/
def processIds (vidReq : String → List RawVideo) :
    List String → DB → ImportOut
  | [], db => ⟨[], db, [], []⟩
  | vid :: rest, db =>
    match YouTubeDatabase.get_video db vid with
    | some _ => processIds vidReq rest db
    | none =>
      match get_video_data vidReq vid with
      | (some v, ds) =>
        let r := processIds vidReq rest (YouTubeDatabase.insert_video db v)
        ⟨v :: r.added, r.db, ds ++ r.diags, vid :: r.fetched⟩
      | (none, ds) =>
        let r := processIds vidReq rest db
        ⟨r.added, r.db, ds ++ r.diags, vid :: r.fetched⟩

/-- `FileImportTool.process_file` (file_import_tool.py:58-85). -/
def process_file (fs : String → FileInput) (vidReq : String → List RawVideo)
    (file_path : String) (db : DB) : ImportOut :=
  let ex := extract_video_ids fs file_path
  let r := processIds vidReq ex.1 db
  ⟨r.added, r.db, ex.2 ++ r.diags, r.fetched⟩

/-- `FileImportTool.process_files` (file_import_tool.py:87-103). -/
def process_files (fs : String → FileInput) (vidReq : String → List RawVideo) :
    List String → DB → ImportOut
  | [], db => ⟨[], db, [], []⟩
  | p :: ps, db =>
    let r := process_file fs vidReq p db
    let rest := process_files fs vidReq ps r.db
    ⟨r.added ++ rest.added, rest.db, r.diags ++ rest.diags, r.fetched ++ rest.fetched⟩

end FileImportTool

/-! ## Specification-side definitions

Definitions below this point are not embeddings of repository code; they are
the vocabulary in which the claim theorems describe the embedded code's
behaviour. -/

/-- The value of a successful `Except`, with a default for the failure case. -/
def okOr {ε α : Type} (e : Except ε α) (d : α) : α :=
  match e with
  | .ok a => a
  | .error _ => d

/-- The normalized rows of one raw playlist page (meaningful when the page
normalizes without error). -/
def pageRows (page : List RawPlaylist) : List PlaylistRow :=
  okOr (normList toPlaylist page) []

/-- The normalized rows of a whole chained playlist listing, in page order. -/
def pagesRows (pages : List (List RawPlaylist)) : List PlaylistRow :=
  (pages.map pageRows).flatten

/-- The normalized rows of one raw playlist-item page. -/
def pageItemRows (playlist_id : String) (page : List RawPlaylistItem) :
    List PlaylistItemRow :=
  okOr (normList (fun i => toPlaylistItem i playlist_id) page) []

/-- The normalized rows of a whole chained playlist-item listing. -/
def pagesItemRows (playlist_id : String) (pages : List (List RawPlaylistItem)) :
    List PlaylistItemRow :=
  (pages.map (pageItemRows playlist_id)).flatten

/-- The single-video lookup oracle returns, for `s`, either no item or an
item that normalizes successfully. -/
def vidOKFor (vidReq : String → List RawVideo) (s : String) : Prop :=
  match vidReq s with
  | [] => True
  | v :: _ => ∃ row, toVideo v = .ok row

/-- Database effect of one playlist item during `get_playlist_videos`:
store the membership row, then store the looked-up video when the lookup
returns one.  (The normalization-failure branch is unreachable under
`vidOKFor`; it is present only to make the function total.) -/
def itemStepDB (vidReq : String → List RawVideo) (db : DB) (r : PlaylistItemRow) : DB :=
  let db1 := YouTubeDatabase.insert_playlist_item db r
  match vidReq r.videoId with
  | [] => db1
  | v :: _ =>
    match toVideo v with
    | .ok row => YouTubeDatabase.insert_video db1 row
    | .error _ => db1

/-- The video rows collected by `get_playlist_videos` for a row list. -/
def itemVids (vidReq : String → List RawVideo) (rows : List PlaylistItemRow) :
    List VideoRow :=
  rows.filterMap (fun r =>
    match vidReq r.videoId with
    | [] => none
    | v :: _ => (toVideo v).toOption)

/-! ## Concrete fixtures used by witnesses and counterexamples -/

/-- A well-formed raw playlist payload with id `i`. -/
def exRawPlaylist (i : String) : RawPlaylist :=
  ⟨some "etag", some i, some "2020-01-01T00:00:00Z", some "chan",
   some ("title " ++ i), some "desc", some 3⟩

/-- A well-formed raw playlist-item payload. -/
def exRawItem (i v : String) (pos : Int) : RawPlaylistItem :=
  ⟨some "etag", some i, some v, some pos⟩

/-- A well-formed raw video payload with id `i`. -/
def exRawVideo (i : String) : RawVideo :=
  ⟨some "etag", some i, some ("video " ++ i), some "d",
   some "2021-02-03T04:05:06Z", some "chan", some "chan title"⟩

def w1pages : List (List RawPlaylist) :=
  [[exRawPlaylist "p1"], [exRawPlaylist "p2", exRawPlaylist "p1"]]

def w1req : Option String → ListResp RawPlaylist := fun t =>
  if t = none then ⟨[exRawPlaylist "p1"], some "TOK2"⟩
  else if t = some "TOK2" then ⟨[exRawPlaylist "p2", exRawPlaylist "p1"], none⟩
  else ⟨[], none⟩

def w1pages2 : List (List RawPlaylistItem) :=
  [[exRawItem "i1" "v1" 0]]

def w1req2 : Option String → ListResp RawPlaylistItem := fun _ =>
  ⟨[exRawItem "i1" "v1" 0], none⟩

def w1vid : String → List RawVideo := fun s =>
  if s = "v1" then [exRawVideo "v1"] else []

def exPlaylistRowA : PlaylistRow := ⟨"e1", "P", "2020-01-01T00:00:00+00:00", "c1", "t1", "d1", 1⟩

def exPlaylistRowB : PlaylistRow := ⟨"e2", "P", "2022-05-05T00:00:00+00:00", "c2", "t2", "d2", 9⟩

def exItemRowA : PlaylistItemRow := ⟨"e1", "I", "pl", "v1", 0⟩

def exItemRowB : PlaylistItemRow := ⟨"e2", "I", "pl2", "v2", 7⟩

def exVideoRowA : VideoRow := ⟨"e1", "A", "t1", "d1", "2020-01-01T00:00:00+00:00", "c1", "n1"⟩

def exVideoRowB : VideoRow := ⟨"e2", "A", "t2", "d2", "2022-05-05T00:00:00+00:00", "c2", "n2"⟩

/-- Two membership rows of playlist `pl`, stored in non-ascending position
order (the second row inserted has the smaller ordinal position). -/
def c4db : DB :=
  YouTubeDatabase.insert_playlist_item
    (YouTubeDatabase.insert_playlist_item emptyDB ⟨"e", "a", "pl", "v1", 1⟩)
    ⟨"e", "b", "pl", "v2", 0⟩

/-- A raw playlist payload whose required `title` field is absent. -/
def c5bad : RawPlaylist :=
  ⟨some "etag", some "bad", some "2020-01-01T00:00:00Z", some "chan",
   none, some "desc", some 0⟩

/-- A single-page remote listing whose middle item is malformed and whose
last item is well-formed. -/
def c5req : Option String → ListResp RawPlaylist := fun _ =>
  ⟨[exRawPlaylist "g1", c5bad, exRawPlaylist "g2"], none⟩

/-- A raw video payload with an unparseable `publishedAt` timestamp. -/
def c5badVid : RawVideo :=
  ⟨some "etag", some "x", some "tx", some "d", some "not-a-timestamp",
   some "chan", some "chan title"⟩

def c5vid : String → List RawVideo := fun s =>
  if s = "x" then [c5badVid] else if s = "y" then [exRawVideo "y"] else []

/-- The video row `toVideo (exRawVideo i)` normalizes to. -/
def exVideoRowOf (i : String) : VideoRow :=
  ⟨"etag", i, "video " ++ i, "d", "2021-02-03T04:05:06+00:00", "chan", "chan title"⟩

def c6db : DB := YouTubeDatabase.insert_video emptyDB exVideoRowA

def c6vid : String → List RawVideo := fun s =>
  if s = "B" then [exRawVideo "B"] else []

def c7line : String := "https://www.youtube.com/watch?v=X"

def c7fs : String → FileInput := fun p =>
  if p = "f1" then .readable [c7line]
  else if p = "f2" then .readable [c7line]
  else .missing

def c7vidFail : String → List RawVideo := fun _ => []

def c7vidOK : String → List RawVideo := fun s =>
  if s = "X" then [exRawVideo "X"] else []

def c8line : String :=
  "https://www.youtube.com/watch?v=ABC123 and [Title](https://www.youtube.com/watch?v=ABC123)"

def c8fs : String → FileInput := fun _ => .readable [c8line]

def c10fs : String → FileInput := fun _ =>
  .readable ["see https://www.youtube.com/watch?v=dQw4w9WgXcQ&t=10s now"]

/-! ## Store lemmas -/

theorem mem_upsertRow {α : Type} (rid : α → String) (t : List α) (r q : α) :
    q ∈ upsertRow rid t r ↔ (q ∈ t ∧ rid q ≠ rid r) ∨ q = r := by
  simp only [upsertRow, List.mem_append, List.mem_filter, List.mem_singleton,
    decide_eq_true_eq]

theorem upsertRow_idem {α : Type} (rid : α → String) (t : List α) (r : α) :
    upsertRow rid (upsertRow rid t r) r = upsertRow rid t r := by
  unfold upsertRow
  rw [List.filter_append]
  have h1 : (t.filter (fun q => decide (rid q ≠ rid r))).filter
      (fun q => decide (rid q ≠ rid r)) = t.filter (fun q => decide (rid q ≠ rid r)) :=
    List.filter_eq_self.2 (fun a ha => (List.mem_filter.1 ha).2)
  have h2 : ([r].filter (fun q => decide (rid q ≠ rid r))) = [] := by simp
  rw [h1, h2, List.append_nil]

theorem find?_filter_of_imp {α : Type} (p f : α → Bool)
    (h : ∀ q, p q = true → f q = true) :
    ∀ l : List α, (l.filter f).find? p = l.find? p := by
  intro l
  induction l with
  | nil => simp
  | cons a l ih =>
    by_cases hf : f a = true
    · rw [List.filter_cons_of_pos hf]
      by_cases hp : p a = true
      · rw [List.find?_cons_of_pos _ hp, List.find?_cons_of_pos _ hp]
      · rw [List.find?_cons_of_neg _ hp, List.find?_cons_of_neg _ hp, ih]
    · have hp : ¬p a = true := fun hpa => hf (h a hpa)
      rw [List.filter_cons_of_neg hf, ih, List.find?_cons_of_neg _ hp]

theorem find?_upsertRow {α : Type} (rid : α → String) (t : List α) (r : α) (i : String) :
    (upsertRow rid t r).find? (fun q => rid q = i) =
      if rid r = i then some r else t.find? (fun q => rid q = i) := by
  unfold upsertRow
  rw [List.find?_append]
  by_cases hr : rid r = i
  · rw [if_pos hr]
    have hnone : (t.filter (fun q => decide (rid q ≠ rid r))).find?
        (fun q => decide (rid q = i)) = none := by
      rw [List.find?_eq_none]
      intro x hx
      have hne := (List.mem_filter.1 hx).2
      simp only [decide_eq_true_eq] at hne ⊢
      intro hxi
      exact hne (hxi.trans hr.symm)
    rw [hnone]
    simp [List.find?_cons, hr]
  · rw [if_neg hr]
    rw [find?_filter_of_imp _ _ (fun q hq => by
      simp only [decide_eq_true_eq] at hq ⊢
      intro h2
      exact hr (h2 ▸ hq))]
    have hone : ([r].find? (fun q => decide (rid q = i))) = none := by
      simp [List.find?_cons, hr]
    rw [hone, Option.or_none]

theorem foldl_upsertRow_find? {α : Type} (rid : α → String) (i : String) :
    ∀ (rows t : List α),
      (rows.foldl (upsertRow rid) t).find? (fun q => rid q = i) =
        (rows.reverse.find? (fun q => rid q = i)).or
          (t.find? (fun q => rid q = i)) := by
  intro rows
  induction rows with
  | nil => intro t; simp
  | cons r rs ih =>
    intro t
    rw [List.foldl_cons, ih, List.reverse_cons, List.find?_append, find?_upsertRow]
    cases hrev : rs.reverse.find? (fun q => decide (rid q = i)) with
    | some q => simp
    | none =>
      by_cases hr : rid r = i
      · simp [List.find?_cons, hr]
      · simp [List.find?_cons, hr]

theorem foldl_insert_playlist (rows : List PlaylistRow) :
    ∀ db : DB,
      (rows.foldl YouTubeDatabase.insert_playlist db).playlist =
        rows.foldl (upsertRow (fun q => q.id)) db.playlist := by
  induction rows with
  | nil => intro db; rfl
  | cons r rs ih =>
    intro db
    rw [List.foldl_cons, List.foldl_cons, ih]
    rfl

/-- Claim C2: an upsert whose id already exists succeeds and fully replaces
every field of the existing row (last-write-wins, no partial merge), for
each of the three record kinds. -/
theorem C2_upsert_replaces :
    (∀ (db : DB) (p old : PlaylistRow), old ∈ db.playlist → old.id = p.id →
      p ∈ (YouTubeDatabase.insert_playlist db p).playlist ∧
      ∀ q ∈ (YouTubeDatabase.insert_playlist db p).playlist, q.id = p.id → q = p) ∧
    (∀ (db : DB) (r old : PlaylistItemRow), old ∈ db.playlist_item → old.id = r.id →
      r ∈ (YouTubeDatabase.insert_playlist_item db r).playlist_item ∧
      ∀ q ∈ (YouTubeDatabase.insert_playlist_item db r).playlist_item,
        q.id = r.id → q = r) ∧
    (∀ (db : DB) (v old : VideoRow), old ∈ db.video → old.id = v.id →
      v ∈ (YouTubeDatabase.insert_video db v).video ∧
      ∀ q ∈ (YouTubeDatabase.insert_video db v).video, q.id = v.id → q = v) := by
  refine ⟨?_, ?_, ?_⟩ <;>
    · intro db r old _hold _hid
      constructor
      · exact (mem_upsertRow _ _ _ _).2 (Or.inr rfl)
      · intro q hq hqid
        rcases (mem_upsertRow _ _ _ _).1 hq with ⟨_, hne⟩ | h
        · exact absurd hqid hne
        · exact h

/-- Witness for C2 at a concrete store: the video table holds a row with id
`A`; upserting a different row with the same id keeps the new row and none
of the old one. -/
theorem C2_upsert_replaces_witness :
    exVideoRowA ∈ (DB.mk [] [] [exVideoRowA]).video ∧
    exVideoRowA.id = exVideoRowB.id ∧
    exVideoRowB ∈
      (YouTubeDatabase.insert_video (DB.mk [] [] [exVideoRowA]) exVideoRowB).video ∧
    exVideoRowA ∉
      (YouTubeDatabase.insert_video (DB.mk [] [] [exVideoRowA]) exVideoRowB).video := by
  refine ⟨by decide, by decide, ?_, ?_⟩
  · exact (C2_upsert_replaces.2.2 (DB.mk [] [] [exVideoRowA]) exVideoRowB exVideoRowA
      (by decide) (by decide)).1
  · intro hmem
    have heq := (C2_upsert_replaces.2.2 (DB.mk [] [] [exVideoRowA]) exVideoRowB
      exVideoRowA (by decide) (by decide)).2 exVideoRowA hmem (by decide)
    exact absurd heq (by decide)

/-- Claim C3: upserting the same record twice leaves the store in the same
observable state as upserting it once, for each of the three record kinds. -/
theorem C3_upsert_idempotent :
    (∀ (db : DB) (p : PlaylistRow),
      YouTubeDatabase.insert_playlist (YouTubeDatabase.insert_playlist db p) p =
        YouTubeDatabase.insert_playlist db p) ∧
    (∀ (db : DB) (r : PlaylistItemRow),
      YouTubeDatabase.insert_playlist_item (YouTubeDatabase.insert_playlist_item db r) r =
        YouTubeDatabase.insert_playlist_item db r) ∧
    (∀ (db : DB) (v : VideoRow),
      YouTubeDatabase.insert_video (YouTubeDatabase.insert_video db v) v =
        YouTubeDatabase.insert_video db v) := by
  refine ⟨?_, ?_, ?_⟩ <;>
    · intro db r
      simp only [YouTubeDatabase.insert_playlist, YouTubeDatabase.insert_playlist_item,
        YouTubeDatabase.insert_video, upsertRow_idem]

/-- Claim C4 counterexample: two rows of playlist `pl` inserted with
positions `1` then `0`; `get_playlist_items` returns them in stored order
`[1, 0]`, which is not ascending ordinal-position order. -/
theorem C4_counterexample :
    (YouTubeDatabase.get_playlist_items c4db "pl").map (fun q => q.position) = [1, 0] ∧
    ¬ List.Sorted (· ≤ ·)
        ((YouTubeDatabase.get_playlist_items c4db "pl").map (fun q => q.position)) := by
  constructor
  · decide
  · have e : (YouTubeDatabase.get_playlist_items c4db "pl").map (fun q => q.position) =
        [1, 0] := by decide
    rw [e]
    simp [List.Sorted]

/-- Claim C4 (amended): `get_playlist_items` returns all and only the rows
whose `playlistId` matches, in stored (table scan) order; ascending
ordinal-position order is not guaranteed. -/
theorem C4_get_playlist_items_filter :
    ∀ (db : DB) (pid : String),
      (∀ q, q ∈ YouTubeDatabase.get_playlist_items db pid ↔
        q ∈ db.playlist_item ∧ q.playlistId = pid) ∧
      (YouTubeDatabase.get_playlist_items db pid).Sublist db.playlist_item := by
  intro db pid
  constructor
  · intro q
    simp [YouTubeDatabase.get_playlist_items, List.mem_filter]
  · exact List.filter_sublist _

/-! ## Pagination lemmas -/

theorem chained_toks_length {α : Type} (req : Option String → ListResp α) :
    ∀ (pages : List (List α)) (toks : List String) (tok : Option String),
      ChainedFrom req tok pages toks → toks.length + 1 = pages.length := by
  intro pages
  induction pages with
  | nil => intro toks tok h; cases toks <;> simp [ChainedFrom] at h
  | cons page rest ih =>
    intro toks tok h
    cases rest with
    | nil =>
      cases toks with
      | nil => simp
      | cons t ts => simp [ChainedFrom] at h
    | cons p2 r2 =>
      cases toks with
      | nil => simp [ChainedFrom] at h
      | cons t ts =>
        simp only [ChainedFrom] at h
        have := ih ts (some t) h.2.2
        simp only [List.length_cons] at this ⊢
        omega

theorem pageInsertPlaylists_ok :
    ∀ (items : List RawPlaylist) (rows : List PlaylistRow),
      normList toPlaylist items = .ok rows →
      ∀ (db : DB) (acc : List PlaylistRow),
        pageInsertPlaylists items db acc =
          .ok (rows.foldl YouTubeDatabase.insert_playlist db, acc ++ rows) := by
  intro items
  induction items with
  | nil =>
    intro rows h db acc
    simp only [normList] at h
    cases h
    simp [pageInsertPlaylists]
  | cons item rest ih =>
    intro rows h db acc
    simp only [normList] at h
    cases hi : toPlaylist item with
    | error e => rw [hi] at h; exact absurd h (by simp)
    | ok p =>
      rw [hi] at h
      cases hr : normList toPlaylist rest with
      | error e => rw [hr] at h; exact absurd h (by simp)
      | ok prows =>
        rw [hr] at h
        cases h
        simp only [pageInsertPlaylists, hi]
        rw [ih prows hr]
        simp

theorem pageInsertItems_ok (vidReq : String → List RawVideo) (playlist_id : String)
    (hvid : ∀ s, vidOKFor vidReq s) :
    ∀ (items : List RawPlaylistItem) (rows : List PlaylistItemRow),
      normList (fun i => toPlaylistItem i playlist_id) items = .ok rows →
      ∀ (db : DB) (acc : List VideoRow),
        pageInsertItems vidReq playlist_id items db acc =
          .ok (rows.foldl (itemStepDB vidReq) db, acc ++ itemVids vidReq rows) := by
  intro items
  induction items with
  | nil =>
    intro rows h db acc
    simp only [normList] at h
    cases h
    simp [pageInsertItems, itemVids]
  | cons item rest ih =>
    intro rows h db acc
    simp only [normList] at h
    cases hi : toPlaylistItem item playlist_id with
    | error e => rw [hi] at h; exact absurd h (by simp)
    | ok r =>
      rw [hi] at h
      cases hr : normList (fun i => toPlaylistItem i playlist_id) rest with
      | error e => rw [hr] at h; exact absurd h (by simp)
      | ok rrows =>
        rw [hr] at h
        cases h
        simp only [pageInsertItems, hi]
        have hv := hvid r.videoId
        unfold vidOKFor at hv
        cases hvq : vidReq r.videoId with
        | nil =>
          rw [ih rrows hr]
          simp [itemStepDB, itemVids, hvq, List.filterMap_cons]
        | cons v vs =>
          rw [hvq] at hv
          obtain ⟨row, hrow⟩ := hv
          simp only [hrow]
          rw [ih rrows hr]
          simp [itemStepDB, itemVids, hvq, hrow, List.filterMap_cons, Except.toOption]

theorem paginate_succ {α β : Type}
    (proc : List α → DB → List β → Except (String × DB) (DB × List β))
    (req : Option String → ListResp α) (fuel : Nat) (tok : Option String)
    (db : DB) (acc : List β) (reqs : List (Option String)) :
    paginate proc req (fuel + 1) tok db acc reqs =
      match proc (req tok).items db acc with
      | .error (e, db2) => .exn e db2 (reqs ++ [tok])
      | .ok (db2, acc2) =>
        match (req tok).nextPageToken with
        | some t =>
          if t = "" then .ok db2 acc2 (reqs ++ [tok])
          else paginate proc req fuel (some t) db2 acc2 (reqs ++ [tok])
        | none => .ok db2 acc2 (reqs ++ [tok]) := rfl

theorem paginate_chained {α β : Type}
    (proc : List α → DB → List β → Except (String × DB) (DB × List β))
    (req : Option String → ListResp α)
    (g : DB → List α → DB) (rs : List α → List β) :
    ∀ (pages : List (List α)) (toks : List String) (tok : Option String)
      (db : DB) (acc : List β) (reqs : List (Option String)),
      ChainedFrom req tok pages toks →
      (∀ page ∈ pages, ∀ (d : DB) (a : List β),
        proc page d a = .ok (g d page, a ++ rs page)) →
      paginate proc req pages.length tok db acc reqs =
        .ok (pages.foldl g db) (acc ++ (pages.map rs).flatten)
          (reqs ++ tok :: toks.map some) := by
  intro pages
  induction pages with
  | nil => intro toks tok db acc reqs hc _; cases toks <;> simp [ChainedFrom] at hc
  | cons page rest ih =>
    intro toks tok db acc reqs hc hproc
    cases rest with
    | nil =>
      cases toks with
      | cons t ts => simp [ChainedFrom] at hc
      | nil =>
        simp only [ChainedFrom] at hc
        have e1 : (page :: ([] : List (List α))).length = 0 + 1 := rfl
        rw [e1, paginate_succ, hc]
        simp only [hproc page (List.mem_singleton.2 rfl) db acc]
        simp
    | cons p2 r2 =>
      cases toks with
      | nil => simp [ChainedFrom] at hc
      | cons t ts =>
        simp only [ChainedFrom] at hc
        obtain ⟨h1, hne, hc2⟩ := hc
        have e1 : (page :: p2 :: r2).length = (p2 :: r2).length + 1 := rfl
        rw [e1, paginate_succ, h1]
        simp only [hproc page (by simp) db acc]
        rw [if_neg hne]
        rw [ih ts (some t) (g db page) (acc ++ rs page) (reqs ++ [tok]) hc2
          (fun pg hpg d a => hproc pg (List.mem_cons_of_mem _ hpg) d a)]
        simp

theorem foldl_flatten_map {α β γ : Type} (f : γ → β → γ) (g : α → List β) :
    ∀ (l : List α) (init : γ),
      ((l.map g).flatten).foldl f init =
        l.foldl (fun d a => (g a).foldl f d) init := by
  intro l
  induction l with
  | nil => intro init; rfl
  | cons a l ih =>
    intro init
    simp only [List.map_cons, List.flatten_cons, List.foldl_append, List.foldl_cons]
    exact ih _

theorem filterMap_flatten_map {α β γ : Type} (f : β → Option γ) (g : α → List β) :
    ∀ l : List α,
      (l.map (fun a => (g a).filterMap f)).flatten =
        ((l.map g).flatten).filterMap f := by
  intro l
  induction l with
  | nil => rfl
  | cons a l ih =>
    simp only [List.map_cons, List.flatten_cons, List.filterMap_append, ih]

/-- Claim C1: run against a remote listing of `N` pages chained by
continuation tokens, the paginated fetcher issues its first request with no
token, each subsequent request with the token of the previous response, and
stops after the first tokenless response — so the recorded request list is
exactly `none` followed by the chain tokens and has length `N`; every item
of every page is normalized and persisted via the store (the final playlist
table resolves each id to the last record carrying it, pages and
within-page order included), and the returned list is the normalized items
of all pages in order.  Both pagination loops (`get_all_playlists` and
`get_playlist_videos`) are covered. -/
theorem C1_paginated_fetcher
    (req : Option String → ListResp RawPlaylist)
    (pages : List (List RawPlaylist)) (toks : List String) (db : DB)
    (hchain : ChainedFrom req none pages toks)
    (hok : ∀ page ∈ pages, ∃ rows, normList toPlaylist page = .ok rows)
    (req2 : Option String → ListResp RawPlaylistItem)
    (vidReq : String → List RawVideo) (playlist_id : String)
    (pages2 : List (List RawPlaylistItem)) (toks2 : List String) (db2 : DB)
    (hchain2 : ChainedFrom req2 none pages2 toks2)
    (hok2 : ∀ page ∈ pages2, ∃ rows,
      normList (fun i => toPlaylistItem i playlist_id) page = .ok rows)
    (hvid : ∀ s, vidOKFor vidReq s) :
    (YouTubePlaylistCollector.get_all_playlists req pages.length db =
      .ok ((pagesRows pages).foldl YouTubeDatabase.insert_playlist db)
        (pagesRows pages) (none :: toks.map some)) ∧
    (none :: toks.map some).length = pages.length ∧
    (∀ i, ((pagesRows pages).foldl YouTubeDatabase.insert_playlist db).playlist.find?
        (fun q => q.id = i) =
      ((pagesRows pages).reverse.find? (fun q => q.id = i)).or
        (db.playlist.find? (fun q => q.id = i))) ∧
    (YouTubePlaylistCollector.get_playlist_videos req2 vidReq playlist_id
        pages2.length db2 =
      .ok ((pagesItemRows playlist_id pages2).foldl (itemStepDB vidReq) db2)
        (itemVids vidReq (pagesItemRows playlist_id pages2))
        (none :: toks2.map some)) ∧
    (none :: toks2.map some).length = pages2.length := by
  have hproc1 : ∀ page ∈ pages, ∀ (d : DB) (a : List PlaylistRow),
      pageInsertPlaylists page d a =
        .ok ((pageRows page).foldl YouTubeDatabase.insert_playlist d,
          a ++ pageRows page) := by
    intro page hpg d a
    obtain ⟨rows, hrows⟩ := hok page hpg
    have hpr : pageRows page = rows := by rw [pageRows, hrows]; rfl
    rw [hpr]
    exact pageInsertPlaylists_ok page rows hrows d a
  have main1 := paginate_chained pageInsertPlaylists req
    (fun d page => (pageRows page).foldl YouTubeDatabase.insert_playlist d) pageRows
    pages toks none db [] [] hchain hproc1
  have hfold1 : pages.foldl
      (fun d page => (pageRows page).foldl YouTubeDatabase.insert_playlist d) db =
      (pagesRows pages).foldl YouTubeDatabase.insert_playlist db := by
    rw [pagesRows, foldl_flatten_map]
  have hlen1 := chained_toks_length req pages toks none hchain
  have hproc2 : ∀ page ∈ pages2, ∀ (d : DB) (a : List VideoRow),
      pageInsertItems vidReq playlist_id page d a =
        .ok ((pageItemRows playlist_id page).foldl (itemStepDB vidReq) d,
          a ++ itemVids vidReq (pageItemRows playlist_id page)) := by
    intro page hpg d a
    obtain ⟨rows, hrows⟩ := hok2 page hpg
    have hpr : pageItemRows playlist_id page = rows := by rw [pageItemRows, hrows]; rfl
    rw [hpr]
    exact pageInsertItems_ok vidReq playlist_id hvid page rows hrows d a
  have main2 := paginate_chained (pageInsertItems vidReq playlist_id) req2
    (fun d page => (pageItemRows playlist_id page).foldl (itemStepDB vidReq) d)
    (fun page => itemVids vidReq (pageItemRows playlist_id page))
    pages2 toks2 none db2 [] [] hchain2 hproc2
  have hfold2 : pages2.foldl
      (fun d page => (pageItemRows playlist_id page).foldl (itemStepDB vidReq) d) db2 =
      (pagesItemRows playlist_id pages2).foldl (itemStepDB vidReq) db2 := by
    rw [pagesItemRows, foldl_flatten_map]
  have hvids : (pages2.map
      (fun page => itemVids vidReq (pageItemRows playlist_id page))).flatten =
      itemVids vidReq (pagesItemRows playlist_id pages2) := by
    rw [pagesItemRows]
    unfold itemVids
    exact filterMap_flatten_map _ _ pages2
  have hlen2 := chained_toks_length req2 pages2 toks2 none hchain2
  refine ⟨?_, ?_, ?_, ?_, ?_⟩
  · show paginate pageInsertPlaylists req pages.length none db [] [] = _
    rw [main1, hfold1]
    simp [pagesRows]
  · simp only [List.length_cons, List.length_map]
    exact hlen1
  · intro i
    rw [foldl_insert_playlist]
    exact foldl_upsertRow_find? (fun q => q.id) i (pagesRows pages) db.playlist
  · show paginate (pageInsertItems vidReq playlist_id) req2 pages2.length
      none db2 [] [] = _
    rw [main2, hfold2, hvids]
    simp
  · simp only [List.length_cons, List.length_map]
    exact hlen2

/-- Witness for C1 at a concrete two-page chained listing (with a cross-page
duplicate id) and a concrete one-page item listing with a video lookup. -/
theorem C1_paginated_fetcher_witness :
    ChainedFrom w1req none w1pages ["TOK2"] ∧
    ChainedFrom w1req2 none w1pages2 ([] : List String) ∧
    (YouTubePlaylistCollector.get_all_playlists w1req w1pages.length emptyDB =
      .ok ((pagesRows w1pages).foldl YouTubeDatabase.insert_playlist emptyDB)
        (pagesRows w1pages) (none :: (["TOK2"].map some))) ∧
    (YouTubePlaylistCollector.get_playlist_videos w1req2 w1vid "PL"
        w1pages2.length emptyDB =
      .ok ((pagesItemRows "PL" w1pages2).foldl (itemStepDB w1vid) emptyDB)
        (itemVids w1vid (pagesItemRows "PL" w1pages2))
        (none :: (([] : List String).map some))) := by
  have hch : ChainedFrom w1req none w1pages ["TOK2"] := by
    refine ⟨by decide, by decide, ?_⟩
    show w1req (some "TOK2") = ⟨[exRawPlaylist "p2", exRawPlaylist "p1"], none⟩
    decide
  have hch2 : ChainedFrom w1req2 none w1pages2 ([] : List String) := by
    show w1req2 none = ⟨[exRawItem "i1" "v1" 0], none⟩
    decide
  have hok : ∀ page ∈ w1pages, ∃ rows, normList toPlaylist page = .ok rows := by
    intro page hpg
    simp only [w1pages, List.mem_cons, List.not_mem_nil, or_false] at hpg
    rcases hpg with rfl | rfl
    · exact ⟨_, rfl⟩
    · exact ⟨_, rfl⟩
  have hok2 : ∀ page ∈ w1pages2, ∃ rows,
      normList (fun i => toPlaylistItem i "PL") page = .ok rows := by
    intro page hpg
    simp only [w1pages2, List.mem_cons, List.not_mem_nil, or_false] at hpg
    subst hpg
    exact ⟨_, rfl⟩
  have hvid : ∀ s, vidOKFor w1vid s := by
    intro s
    unfold vidOKFor w1vid
    by_cases h : s = "v1"
    · simp only [h, if_pos rfl]
      exact ⟨_, rfl⟩
    · simp only [if_neg h]
  have main := C1_paginated_fetcher w1req w1pages ["TOK2"] emptyDB hch hok
    w1req2 w1vid "PL" w1pages2 ([] : List String) emptyDB hch2 hok2 hvid
  exact ⟨hch, hch2, main.1, main.2.2.2.1⟩

/-! ## Normalization lemmas -/

theorem getField_ok {α : Type} {v : Option α} {k : String} {x : α}
    (h : getField v k = .ok x) : v = some x := by
  cases v with
  | none => simp [getField] at h
  | some y =>
    simp only [getField, Except.ok.injEq] at h
    rw [h]

theorem toPlaylist_ok_required {item : RawPlaylist} {row : PlaylistRow}
    (h : toPlaylist item = .ok row) :
    item.id = some row.id ∧ item.title = some row.title ∧
    ∃ ts, item.publishedAt = some ts ∧ parseTimestamp ts = .ok row.publishedAt := by
  unfold toPlaylist at h
  split at h
  · exact absurd h (by simp)
  rename_i etag hetag
  split at h
  · exact absurd h (by simp)
  rename_i idv hid
  split at h
  · exact absurd h (by simp)
  rename_i praw hpraw
  split at h
  · exact absurd h (by simp)
  rename_i pub hpub
  split at h
  · exact absurd h (by simp)
  rename_i ch hch
  split at h
  · exact absurd h (by simp)
  rename_i ttl httl
  split at h
  · exact absurd h (by simp)
  rename_i desc hdesc
  split at h
  · exact absurd h (by simp)
  rename_i cnt hcnt
  cases h
  exact ⟨getField_ok hid, getField_ok httl, praw, getField_ok hpraw, hpub⟩

theorem toVideo_ok_required {item : RawVideo} {row : VideoRow}
    (h : toVideo item = .ok row) :
    item.id = some row.id ∧ item.title = some row.title ∧
    ∃ ts, item.publishedAt = some ts ∧ parseTimestamp ts = .ok row.publishedAt := by
  unfold toVideo at h
  split at h
  · exact absurd h (by simp)
  rename_i etag hetag
  split at h
  · exact absurd h (by simp)
  rename_i idv hid
  split at h
  · exact absurd h (by simp)
  rename_i ttl httl
  split at h
  · exact absurd h (by simp)
  rename_i desc hdesc
  split at h
  · exact absurd h (by simp)
  rename_i praw hpraw
  split at h
  · exact absurd h (by simp)
  rename_i pub hpub
  split at h
  · exact absurd h (by simp)
  rename_i ch hch
  split at h
  · exact absurd h (by simp)
  rename_i chT hchT
  cases h
  exact ⟨getField_ok hid, getField_ok httl, praw, getField_ok hpraw, hpub⟩

/-- Claim C5 counterexample: a single remote page `[good1, bad, good2]`
whose middle item lacks the required `title` field.  The fetch aborts with
the uncaught `KeyError` and the well-formed item `good2` that follows the
malformed one is never persisted — contradicting "the remaining items of
the same batch or page are still normalized and persisted". -/
theorem C5_counterexample :
    YouTubePlaylistCollector.get_all_playlists c5req 1 emptyDB =
      .exn "KeyError: title"
        ⟨[⟨"etag", "g1", "2020-01-01T00:00:00+00:00", "chan", "title g1", "desc", 3⟩],
          [], []⟩
        [none] ∧
    "g2" ∉ ((⟨[⟨"etag", "g1", "2020-01-01T00:00:00+00:00", "chan", "title g1",
        "desc", 3⟩], [], []⟩ : DB).playlist.map (fun q => q.id)) := by
  constructor
  · decide
  · decide

/-- Claim C5 (amended): a raw item missing a required field (`id`, `title`)
or carrying an unparseable timestamp fails normalization — a successful
normalization pins every required field to the payload's value, so nothing
is silently defaulted.  In the file-import single-item path the failure is
caught with a diagnostic and aborts only that item (the remaining ids are
processed unchanged); in the paginated collector the exception propagates
and aborts the whole page, keeping only the items persisted before the
failure. -/
theorem C5_malformed_input :
    (∀ (item : RawPlaylist) (row : PlaylistRow), toPlaylist item = .ok row →
      item.id = some row.id ∧ item.title = some row.title ∧
      ∃ ts, item.publishedAt = some ts ∧ parseTimestamp ts = .ok row.publishedAt) ∧
    (∀ (item : RawVideo) (row : VideoRow), toVideo item = .ok row →
      item.id = some row.id ∧ item.title = some row.title ∧
      ∃ ts, item.publishedAt = some ts ∧ parseTimestamp ts = .ok row.publishedAt) ∧
    (∀ (vidReq : String → List RawVideo) (vid : String),
      (FileImportTool.get_video_data vidReq vid).1 = none →
      (FileImportTool.get_video_data vidReq vid).2 ≠ []) ∧
    (∀ (vidReq : String → List RawVideo) (vid : String) (rest : List String) (db : DB),
      YouTubeDatabase.get_video db vid = none →
      (FileImportTool.get_video_data vidReq vid).1 = none →
      FileImportTool.processIds vidReq (vid :: rest) db =
        ⟨(FileImportTool.processIds vidReq rest db).added,
         (FileImportTool.processIds vidReq rest db).db,
         (FileImportTool.get_video_data vidReq vid).2 ++
           (FileImportTool.processIds vidReq rest db).diags,
         vid :: (FileImportTool.processIds vidReq rest db).fetched⟩) ∧
    (∀ (pre : List RawPlaylist) (bad : RawPlaylist) (post : List RawPlaylist)
       (rows : List PlaylistRow) (e : String) (db : DB) (acc : List PlaylistRow),
      normList toPlaylist pre = .ok rows → toPlaylist bad = .error e →
      pageInsertPlaylists (pre ++ bad :: post) db acc =
        .error (e, rows.foldl YouTubeDatabase.insert_playlist db)) := by
  refine ⟨fun item row h => toPlaylist_ok_required h,
    fun item row h => toVideo_ok_required h, ?_, ?_, ?_⟩
  · intro vidReq vid h
    unfold FileImportTool.get_video_data at h ⊢
    split at h
    · simp
    · split at h
      · simp at h
      · simp
  · intro vidReq vid rest db h1 h2
    cases hgvd : FileImportTool.get_video_data vidReq vid with
    | mk o ds =>
      rw [hgvd] at h2
      have ho : o = none := h2
      subst ho
      simp only [FileImportTool.processIds, h1, hgvd]
  · intro pre
    induction pre with
    | nil =>
      intro bad post rows e db acc h1 h2
      simp only [normList] at h1
      cases h1
      simp [pageInsertPlaylists, h2]
    | cons itm rest ih =>
      intro bad post rows e db acc h1 h2
      simp only [normList] at h1
      cases hi : toPlaylist itm with
      | error e2 => rw [hi] at h1; exact absurd h1 (by simp)
      | ok p =>
        rw [hi] at h1
        cases hr : normList toPlaylist rest with
        | error e2 => rw [hr] at h1; exact absurd h1 (by simp)
        | ok prows =>
          rw [hr] at h1
          cases h1
          simp only [List.cons_append, pageInsertPlaylists, hi, List.append_eq]
          rw [ih bad post prows e (YouTubeDatabase.insert_playlist db p) (acc ++ [p]) hr h2]
          simp

/-- Witness for C5 at a concrete input: id `x` resolves to a raw video with
an unparseable timestamp; its normalization failure yields a diagnostic and
only skips `x`, while `y` is still processed. -/
theorem C5_malformed_input_witness :
    YouTubeDatabase.get_video emptyDB "x" = none ∧
    (FileImportTool.get_video_data c5vid "x").1 = none ∧
    FileImportTool.processIds c5vid ["x", "y"] emptyDB =
      ⟨(FileImportTool.processIds c5vid ["y"] emptyDB).added,
       (FileImportTool.processIds c5vid ["y"] emptyDB).db,
       (FileImportTool.get_video_data c5vid "x").2 ++
         (FileImportTool.processIds c5vid ["y"] emptyDB).diags,
       "x" :: (FileImportTool.processIds c5vid ["y"] emptyDB).fetched⟩ :=
  ⟨by decide, by decide,
    C5_malformed_input.2.2.2.1 c5vid "x" ["y"] emptyDB (by decide) (by decide)⟩

/-! ## Extractor lemmas -/

theorem mem_insertId {ids : List String} {i x : String} :
    x ∈ insertId ids i ↔ x ∈ ids ∨ x = i := by
  unfold insertId
  split
  · rename_i h
    constructor
    · exact Or.inl
    · rintro (hx | rfl)
      · exact hx
      · exact h
  · simp [List.mem_append]

theorem nodup_insertId {ids : List String} (h : ids.Nodup) (i : String) :
    (insertId ids i).Nodup := by
  unfold insertId
  split
  · exact h
  · rename_i hni
    simp [List.nodup_append, h, hni]

theorem mem_insertAll' : ∀ (new ids : List String) (x : String),
    x ∈ insertAll ids new ↔ x ∈ ids ∨ x ∈ new := by
  intro new
  induction new with
  | nil => intro ids x; simp [insertAll]
  | cons n ns ih =>
    intro ids x
    show x ∈ insertAll (insertId ids n) ns ↔ _
    rw [ih, mem_insertId]
    simp only [List.mem_cons]
    tauto

theorem nodup_insertAll : ∀ (new ids : List String), ids.Nodup → (insertAll ids new).Nodup := by
  intro new
  induction new with
  | nil => intro ids h; exact h
  | cons n ns ih =>
    intro ids h
    exact ih _ (nodup_insertId h n)

theorem mem_extractLine {ids : List String} {line : String} {x : String} :
    x ∈ extractLine ids line ↔
      x ∈ ids ∨ x ∈ findAll1 line.toList ∨ x ∈ findAll2 line.toList := by
  unfold extractLine
  rw [mem_insertAll', mem_insertAll']
  tauto

theorem mem_foldl_extractLine : ∀ (ls ids : List String) (x : String),
    x ∈ ls.foldl extractLine ids ↔
      x ∈ ids ∨ ∃ l ∈ ls, x ∈ findAll1 l.toList ∨ x ∈ findAll2 l.toList := by
  intro ls
  induction ls with
  | nil => intro ids x; simp
  | cons l ls ih =>
    intro ids x
    rw [List.foldl_cons, ih, mem_extractLine]
    simp only [List.mem_cons]
    constructor
    · rintro ((h | h | h) | ⟨l2, hl2, h2⟩)
      · exact Or.inl h
      · exact Or.inr ⟨l, Or.inl rfl, Or.inl h⟩
      · exact Or.inr ⟨l, Or.inl rfl, Or.inr h⟩
      · exact Or.inr ⟨l2, Or.inr hl2, h2⟩
    · rintro (h | ⟨l2, (rfl | hl2), h2⟩)
      · exact Or.inl (Or.inl h)
      · rcases h2 with h2 | h2
        · exact Or.inl (Or.inr (Or.inl h2))
        · exact Or.inl (Or.inr (Or.inr h2))
      · exact Or.inr ⟨l2, hl2, h2⟩

theorem nodup_foldl_extractLine : ∀ (ls ids : List String),
    ids.Nodup → (ls.foldl extractLine ids).Nodup := by
  intro ls
  induction ls with
  | nil => intro ids h; exact h
  | cons l ls ih =>
    intro ids h
    exact ih _ (nodup_insertAll _ _ (nodup_insertAll _ _ h))

theorem takeIdRun_chars : ∀ cs : List Char, ∀ c ∈ (takeIdRun cs).1, idChar c = true := by
  intro cs
  induction cs with
  | nil => simp [takeIdRun]
  | cons a cs ih =>
    simp only [takeIdRun]
    split
    · rename_i h
      intro c hc
      simp only [List.mem_cons] at hc
      rcases hc with rfl | hc
      · exact h
      · exact ih c hc
    · simp

theorem matchWatchUrl_id_chars {cs : List Char} {p : String × List Char}
    (h : matchWatchUrl cs = some p) :
    p.1.toList ≠ [] ∧ ∀ c ∈ p.1.toList, idChar c = true := by
  unfold matchWatchUrl at h
  split at h
  · exact absurd h (by simp)
  split at h
  · exact absurd h (by simp)
  split at h
  · exact absurd h (by simp)
  rename_i r5 h5
  split at h
  · exact absurd h (by simp)
  rename_i hne
  cases h
  rw [List.isEmpty_eq_true] at hne
  constructor
  · show ((takeIdRun r5).1.asString).toList ≠ []
    rw [List.toList_asString]
    exact hne
  · show ∀ c ∈ ((takeIdRun r5).1.asString).toList, idChar c = true
    rw [List.toList_asString]
    exact takeIdRun_chars r5

theorem mdClose_id_chars {cs : List Char} {p : String × List Char}
    (h : mdClose cs = some p) :
    p.1.toList ≠ [] ∧ ∀ c ∈ p.1.toList, idChar c = true := by
  unfold mdClose at h
  split at h
  · exact absurd h (by simp)
  split at h
  · exact absurd h (by simp)
  rename_i q hq
  split at h
  · exact absurd h (by simp)
  cases h
  exact matchWatchUrl_id_chars (p := q) hq

theorem matchMdTail_id_chars : ∀ (cs : List Char) {p : String × List Char},
    matchMdTail cs = some p →
    p.1.toList ≠ [] ∧ ∀ c ∈ p.1.toList, idChar c = true := by
  intro cs
  induction cs with
  | nil => intro p h; simp [matchMdTail] at h
  | cons c cs ih =>
    intro p h
    simp only [matchMdTail] at h
    split at h
    · rename_i res heq
      cases h
      exact mdClose_id_chars heq
    · split at h
      · exact absurd h (by simp)
      · exact ih h

theorem matchMd_id_chars {cs : List Char} {p : String × List Char}
    (h : matchMd cs = some p) :
    p.1.toList ≠ [] ∧ ∀ c ∈ p.1.toList, idChar c = true := by
  unfold matchMd at h
  split at h
  · exact matchMdTail_id_chars _ h
  · exact absurd h (by simp)

theorem findAll1Go_chars : ∀ (fuel : Nat) (cs : List Char) (x : String),
    x ∈ findAll1Go fuel cs →
    x.toList ≠ [] ∧ ∀ c ∈ x.toList, idChar c = true := by
  intro fuel
  induction fuel with
  | zero => intro cs x hx; simp [findAll1Go] at hx
  | succ fuel ih =>
    intro cs x hx
    cases cs with
    | nil => simp [findAll1Go] at hx
    | cons c cs =>
      simp only [findAll1Go] at hx
      cases hm : matchWatchUrl (c :: cs) with
      | some p =>
        simp only [hm] at hx
        rcases List.mem_cons.1 hx with rfl | hx
        · exact matchWatchUrl_id_chars hm
        · exact ih p.2 x hx
      | none =>
        simp only [hm] at hx
        exact ih cs x hx

theorem findAll1_chars : ∀ (cs : List Char) (x : String), x ∈ findAll1 cs →
    x.toList ≠ [] ∧ ∀ c ∈ x.toList, idChar c = true := by
  intro cs x hx
  exact findAll1Go_chars cs.length cs x hx

theorem findAll2Go_chars : ∀ (fuel : Nat) (cs : List Char) (x : String),
    x ∈ findAll2Go fuel cs →
    x.toList ≠ [] ∧ ∀ c ∈ x.toList, idChar c = true := by
  intro fuel
  induction fuel with
  | zero => intro cs x hx; simp [findAll2Go] at hx
  | succ fuel ih =>
    intro cs x hx
    cases cs with
    | nil => simp [findAll2Go] at hx
    | cons c cs =>
      simp only [findAll2Go] at hx
      cases hm : matchMd (c :: cs) with
      | some p =>
        simp only [hm] at hx
        rcases List.mem_cons.1 hx with rfl | hx
        · exact matchMd_id_chars hm
        · exact ih p.2 x hx
      | none =>
        simp only [hm] at hx
        exact ih cs x hx

theorem findAll2_chars : ∀ (cs : List Char) (x : String), x ∈ findAll2 cs →
    x.toList ≠ [] ∧ ∀ c ∈ x.toList, idChar c = true := by
  intro cs x hx
  exact findAll2Go_chars cs.length cs x hx

/-- Claim C8: both patterns are applied to every line, their matches are
merged into one deduplicated set, and a line carrying the same id as a bare
watch-URL and as a markdown link yields exactly the one-element set. -/
theorem C8_extraction_merges_and_dedups :
    (∀ (ls : List String) (path x : String),
      x ∈ (extract_video_ids (fun _ => FileInput.readable ls) path).1 ↔
        ∃ l ∈ ls, x ∈ findAll1 l.toList ∨ x ∈ findAll2 l.toList) ∧
    (∀ (fs : String → FileInput) (path : String),
      (extract_video_ids fs path).1.Nodup) ∧
    extract_video_ids c8fs "notes.md" = (["ABC123"], []) := by
  refine ⟨?_, ?_, by decide⟩
  · intro ls path x
    show x ∈ ls.foldl extractLine [] ↔ _
    rw [mem_foldl_extractLine]
    simp
  · intro fs path
    unfold extract_video_ids
    split
    · simp
    · simp
    · exact nodup_foldl_extractLine _ _ List.nodup_nil


/-- Claim C9: a missing or unreadable file yields the empty id set plus a
diagnostic; the embedding of `extract_video_ids` is a total function — the
`except Exception` handler means no exception escapes to the caller. -/
theorem C9_missing_file_empty :
    ∀ path : String,
      extract_video_ids (fun _ => FileInput.missing) path =
        ([], ["Error: File not found: " ++ path]) ∧
      extract_video_ids (fun _ => FileInput.unreadable) path =
        ([], ["Error reading file " ++ path]) := by
  intro path
  exact ⟨rfl, rfl⟩

/-- Claim C10: every extracted id is a nonempty string over the character
class `[a-zA-Z0-9_-]`; URL query parameters such as a trailing `&t=10s` can
never be part of an extracted id since `&` and `=` are outside the class. -/
theorem C10_id_charset :
    ∀ (fs : String → FileInput) (path x : String),
      x ∈ (extract_video_ids fs path).1 →
      x.toList ≠ [] ∧ ∀ c ∈ x.toList, idChar c = true := by
  intro fs path x hx
  unfold extract_video_ids at hx
  split at hx
  · simp at hx
  · simp at hx
  · rename_i ls heq
    rw [show ((ls.foldl extractLine [], ([] : List String))).1 =
      ls.foldl extractLine [] from rfl] at hx
    rw [mem_foldl_extractLine] at hx
    rcases hx with h | ⟨l, _hl, h | h⟩
    · simp at h
    · exact findAll1_chars _ x h
    · exact findAll2_chars _ x h

/-- Witness for C10: the id extracted from a line with a trailing `&t=10s`
parameter is `dQw4w9WgXcQ` — nonempty, and the parameter is not part of it. -/
theorem C10_id_charset_witness :
    "dQw4w9WgXcQ" ∈ (extract_video_ids c10fs "a.md").1 ∧
    "dQw4w9WgXcQ".toList ≠ [] :=
  ⟨by decide, (C10_id_charset c10fs "a.md" "dQw4w9WgXcQ" (by decide)).1⟩

/-! ## Ingestion lemmas -/

theorem extract_video_ids_nodup (fs : String → FileInput) (path : String) :
    (extract_video_ids fs path).1.Nodup := by
  unfold extract_video_ids
  split
  · simp
  · simp
  · exact nodup_foldl_extractLine _ _ List.nodup_nil

theorem toVideo_exRawVideo (i : String) : toVideo (exRawVideo i) = .ok (exVideoRowOf i) :=
  rfl

theorem get_video_insert (db : DB) (v : VideoRow) (i : String) :
    YouTubeDatabase.get_video (YouTubeDatabase.insert_video db v) i =
      if v.id = i then some v else YouTubeDatabase.get_video db i := by
  unfold YouTubeDatabase.get_video YouTubeDatabase.insert_video
  exact find?_upsertRow (fun q => q.id) db.video v i

theorem processIds_preserves_video (vidReq : String → List RawVideo) :
    ∀ (ids : List String) (db : DB) (x : String),
      (YouTubeDatabase.get_video db x).isSome →
      (YouTubeDatabase.get_video
        (FileImportTool.processIds vidReq ids db).db x).isSome := by
  intro ids
  induction ids with
  | nil => intro db x h; exact h
  | cons vid rest ih =>
    intro db x h
    cases hgv : YouTubeDatabase.get_video db vid with
    | some w =>
      simp only [FileImportTool.processIds, hgv]
      exact ih db x h
    | none =>
      cases hgvd : FileImportTool.get_video_data vidReq vid with
      | mk o ds =>
        cases o with
        | some v =>
          simp only [FileImportTool.processIds, hgv, hgvd]
          apply ih
          rw [get_video_insert]
          split
          · simp
          · exact h
        | none =>
          simp only [FileImportTool.processIds, hgv, hgvd]
          exact ih db x h

theorem processIds_fetched_absent (vidReq : String → List RawVideo) :
    ∀ (ids : List String) (db : DB) (x : String),
      x ∈ (FileImportTool.processIds vidReq ids db).fetched →
      YouTubeDatabase.get_video db x = none := by
  intro ids
  induction ids with
  | nil => intro db x hx; simp [FileImportTool.processIds] at hx
  | cons vid rest ih =>
    intro db x hx
    cases hgv : YouTubeDatabase.get_video db vid with
    | some w =>
      simp only [FileImportTool.processIds, hgv] at hx
      exact ih db x hx
    | none =>
      cases hgvd : FileImportTool.get_video_data vidReq vid with
      | mk o ds =>
        cases o with
        | some v =>
          simp only [FileImportTool.processIds, hgv, hgvd] at hx
          rcases List.mem_cons.1 hx with rfl | hx
          · exact hgv
          · have h2 := ih (YouTubeDatabase.insert_video db v) x hx
            rw [get_video_insert] at h2
            split at h2
            · exact absurd h2 (by simp)
            · exact h2
        | none =>
          simp only [FileImportTool.processIds, hgv, hgvd] at hx
          rcases List.mem_cons.1 hx with rfl | hx
          · exact hgv
          · exact ih db x hx

theorem processIds_fetched_sublist (vidReq : String → List RawVideo) :
    ∀ (ids : List String) (db : DB),
      (FileImportTool.processIds vidReq ids db).fetched.Sublist ids := by
  intro ids
  induction ids with
  | nil => intro db; simp [FileImportTool.processIds]
  | cons vid rest ih =>
    intro db
    cases hgv : YouTubeDatabase.get_video db vid with
    | some w =>
      simp only [FileImportTool.processIds, hgv]
      exact (ih db).cons vid
    | none =>
      cases hgvd : FileImportTool.get_video_data vidReq vid with
      | mk o ds =>
        cases o with
        | some v =>
          simp only [FileImportTool.processIds, hgv, hgvd]
          exact (ih (YouTubeDatabase.insert_video db v)).cons₂ vid
        | none =>
          simp only [FileImportTool.processIds, hgv, hgvd]
          exact (ih db).cons₂ vid

theorem processIds_fetched_present (vidReq : String → List RawVideo)
    (honest : ∀ (s : String) (v : VideoRow),
      (FileImportTool.get_video_data vidReq s).1 = some v → v.id = s) :
    ∀ (ids : List String) (db : DB) (x : String),
      x ∈ (FileImportTool.processIds vidReq ids db).fetched →
      (∃ v, (FileImportTool.get_video_data vidReq x).1 = some v) →
      (YouTubeDatabase.get_video
        (FileImportTool.processIds vidReq ids db).db x).isSome := by
  intro ids
  induction ids with
  | nil => intro db x hx _; simp [FileImportTool.processIds] at hx
  | cons vid rest ih =>
    intro db x hx hsucc
    cases hgv : YouTubeDatabase.get_video db vid with
    | some w =>
      simp only [FileImportTool.processIds, hgv] at hx ⊢
      exact ih db x hx hsucc
    | none =>
      cases hgvd : FileImportTool.get_video_data vidReq vid with
      | mk o ds =>
        cases o with
        | some v =>
          simp only [FileImportTool.processIds, hgv, hgvd] at hx ⊢
          rcases List.mem_cons.1 hx with rfl | hx
          · have hv : v.id = x := honest x v (by rw [hgvd])
            apply processIds_preserves_video
            rw [get_video_insert, if_pos hv]
            simp
          · exact ih (YouTubeDatabase.insert_video db v) x hx hsucc
        | none =>
          simp only [FileImportTool.processIds, hgv, hgvd] at hx ⊢
          rcases List.mem_cons.1 hx with rfl | hx
          · obtain ⟨v, hv⟩ := hsucc
            rw [hgvd] at hv
            exact absurd hv (by simp)
          · exact ih db x hx hsucc

theorem processIds_not_fetched (vidReq : String → List RawVideo)
    (honest : ∀ (s : String) (v : VideoRow),
      (FileImportTool.get_video_data vidReq s).1 = some v → v.id = s) :
    ∀ (ids : List String) (db : DB) (x : String),
      x ∉ (FileImportTool.processIds vidReq ids db).fetched →
      YouTubeDatabase.get_video (FileImportTool.processIds vidReq ids db).db x =
        YouTubeDatabase.get_video db x := by
  intro ids
  induction ids with
  | nil => intro db x _; rfl
  | cons vid rest ih =>
    intro db x hx
    cases hgv : YouTubeDatabase.get_video db vid with
    | some w =>
      simp only [FileImportTool.processIds, hgv] at hx ⊢
      exact ih db x hx
    | none =>
      cases hgvd : FileImportTool.get_video_data vidReq vid with
      | mk o ds =>
        cases o with
        | some v =>
          simp only [FileImportTool.processIds, hgv, hgvd] at hx ⊢
          rw [List.mem_cons] at hx
          push_neg at hx
          rw [ih (YouTubeDatabase.insert_video db v) x hx.2, get_video_insert]
          have hv : v.id = vid := honest vid v (by rw [hgvd])
          rw [if_neg (by rw [hv]; exact fun h => hx.1 h.symm)]
        | none =>
          simp only [FileImportTool.processIds, hgv, hgvd] at hx ⊢
          rw [List.mem_cons] at hx
          push_neg at hx
          exact ih db x hx.2

theorem processIds_added_count (vidReq : String → List RawVideo)
    (honest : ∀ (s : String) (v : VideoRow),
      (FileImportTool.get_video_data vidReq s).1 = some v → v.id = s)
    (x : String) :
    ∀ (ids : List String) (db : DB),
      ((FileImportTool.processIds vidReq ids db).added.filter
        (fun v => v.id = x)).length ≤
        (FileImportTool.processIds vidReq ids db).fetched.count x := by
  intro ids
  induction ids with
  | nil => intro db; simp [FileImportTool.processIds]
  | cons vid rest ih =>
    intro db
    cases hgv : YouTubeDatabase.get_video db vid with
    | some w =>
      simp only [FileImportTool.processIds, hgv]
      exact ih db
    | none =>
      cases hgvd : FileImportTool.get_video_data vidReq vid with
      | mk o ds =>
        cases o with
        | some v =>
          simp only [FileImportTool.processIds, hgv, hgvd]
          have hv : v.id = vid := honest vid v (by rw [hgvd])
          rw [List.count_cons]
          by_cases hvx : v.id = x
          · rw [List.filter_cons_of_pos (by simp [hvx])]
            have hvidx : (vid == x) = true := by
              rw [← hv, hvx]
              simp
            rw [hvidx]
            simp only [List.length_cons, if_true]
            have := ih (YouTubeDatabase.insert_video db v)
            omega
          · rw [List.filter_cons_of_neg (by simp [hvx])]
            have := ih (YouTubeDatabase.insert_video db v)
            have hle : (if (vid == x) = true then 1 else 0) ≥ 0 := by omega
            split <;> omega
        | none =>
          simp only [FileImportTool.processIds, hgv, hgvd]
          rw [List.count_cons]
          have := ih db
          split <;> omega

theorem processIds_added_from_fetch (vidReq : String → List RawVideo) :
    ∀ (ids : List String) (db : DB) (v : VideoRow),
      v ∈ (FileImportTool.processIds vidReq ids db).added →
      ∃ i, (FileImportTool.get_video_data vidReq i).1 = some v := by
  intro ids
  induction ids with
  | nil => intro db v hv; simp [FileImportTool.processIds] at hv
  | cons vid rest ih =>
    intro db v hv
    cases hgv : YouTubeDatabase.get_video db vid with
    | some w =>
      simp only [FileImportTool.processIds, hgv] at hv
      exact ih db v hv
    | none =>
      cases hgvd : FileImportTool.get_video_data vidReq vid with
      | mk o ds =>
        cases o with
        | some v2 =>
          simp only [FileImportTool.processIds, hgv, hgvd] at hv
          rcases List.mem_cons.1 hv with rfl | hv
          · exact ⟨vid, by rw [hgvd]⟩
          · exact ih (YouTubeDatabase.insert_video db v2) v hv
        | none =>
          simp only [FileImportTool.processIds, hgv, hgvd] at hv
          exact ih db v hv

/-- Claim C6: over a duplicate-free candidate set with an honest remote
oracle (a returned record carries the queried id), `process_file`'s id loop
issues exactly one remote lookup per id absent from the store (present ids
are skipped), upserts and returns exactly the successfully fetched records,
and surfaces a diagnostic for every lookup that yields no record, while the
rest of the batch is still processed (the run never fails). -/
theorem C6_process_file_reconciliation
    (vidReq : String → List RawVideo)
    (honest : ∀ (s : String) (v : VideoRow),
      (FileImportTool.get_video_data vidReq s).1 = some v → v.id = s) :
    ∀ (ids : List String) (db : DB), ids.Nodup →
      (FileImportTool.processIds vidReq ids db).fetched =
          ids.filter (fun i => (YouTubeDatabase.get_video db i).isNone) ∧
      (FileImportTool.processIds vidReq ids db).added =
          ((FileImportTool.processIds vidReq ids db).fetched).filterMap
            (fun i => (FileImportTool.get_video_data vidReq i).1) ∧
      (FileImportTool.processIds vidReq ids db).db =
          ((FileImportTool.processIds vidReq ids db).added).foldl
            YouTubeDatabase.insert_video db ∧
      (∀ i ∈ (FileImportTool.processIds vidReq ids db).fetched,
        ∀ d ∈ (FileImportTool.get_video_data vidReq i).2,
          d ∈ (FileImportTool.processIds vidReq ids db).diags) ∧
      (∀ s : String, vidReq s = [] →
        (FileImportTool.get_video_data vidReq s).1 = none ∧
        (FileImportTool.get_video_data vidReq s).2 ≠ []) := by
  intro ids
  induction ids with
  | nil =>
    intro db _
    refine ⟨rfl, rfl, rfl, ?_, ?_⟩
    · intro i hi
      simp [FileImportTool.processIds] at hi
    · intro s hs
      unfold FileImportTool.get_video_data
      rw [hs]
      simp
  | cons vid rest ih =>
    intro db hnd
    rw [List.nodup_cons] at hnd
    obtain ⟨hvid, hndr⟩ := hnd
    have hempty : ∀ s : String, vidReq s = [] →
        (FileImportTool.get_video_data vidReq s).1 = none ∧
        (FileImportTool.get_video_data vidReq s).2 ≠ [] := by
      intro s hs
      unfold FileImportTool.get_video_data
      rw [hs]
      simp
    cases hgv : YouTubeDatabase.get_video db vid with
    | some w =>
      have hr := ih db hndr
      simp only [FileImportTool.processIds, hgv]
      refine ⟨?_, hr.2.1, hr.2.2.1, hr.2.2.2.1, hempty⟩
      rw [List.filter_cons_of_neg (by simp [hgv])]
      exact hr.1
    | none =>
      cases hgvd : FileImportTool.get_video_data vidReq vid with
      | mk o ds =>
        cases o with
        | some v =>
          have hvidid : v.id = vid := honest vid v (by rw [hgvd])
          have hr := ih (YouTubeDatabase.insert_video db v) hndr
          have hfilter : rest.filter
              (fun i => (YouTubeDatabase.get_video
                (YouTubeDatabase.insert_video db v) i).isNone) =
              rest.filter (fun i => (YouTubeDatabase.get_video db i).isNone) := by
            apply List.filter_congr
            intro i hi
            rw [get_video_insert, if_neg (by
              rw [hvidid]
              exact fun h => hvid (h ▸ hi))]
          simp only [FileImportTool.processIds, hgv, hgvd]
          refine ⟨?_, ?_, ?_, ?_, hempty⟩
          · rw [List.filter_cons_of_pos (by simp [hgv]), hr.1, hfilter]
          · rw [List.filterMap_cons]
            have h1 : (FileImportTool.get_video_data vidReq vid).1 = some v := by
              rw [hgvd]
            rw [h1, hr.2.1]
          · rw [List.foldl_cons]
            exact hr.2.2.1
          · intro i hi d hd
            rcases List.mem_cons.1 hi with rfl | hi
            · have h2 : (FileImportTool.get_video_data vidReq i).2 = ds := by
                rw [hgvd]
              rw [h2] at hd
              exact List.mem_append_left _ hd
            · exact List.mem_append_right _ (hr.2.2.2.1 i hi d hd)
        | none =>
          have hr := ih db hndr
          simp only [FileImportTool.processIds, hgv, hgvd]
          refine ⟨?_, ?_, ?_, ?_, hempty⟩
          · rw [List.filter_cons_of_pos (by simp [hgv]), hr.1]
          · rw [List.filterMap_cons]
            have h1 : (FileImportTool.get_video_data vidReq vid).1 = none := by
              rw [hgvd]
            rw [h1, hr.2.1]
          · exact hr.2.2.1
          · intro i hi d hd
            rcases List.mem_cons.1 hi with rfl | hi
            · have h2 : (FileImportTool.get_video_data vidReq i).2 = ds := by
                rw [hgvd]
              rw [h2] at hd
              exact List.mem_append_left _ hd
            · exact List.mem_append_right _ (hr.2.2.2.1 i hi d hd)

/-- Witness for C6: store holds video `A`; candidates `A`, `B`, `C`; the
oracle knows `B` and not `C`.  Exactly `B` and `C` are looked up and
exactly `B`'s record is returned. -/
theorem C6_process_file_reconciliation_witness :
    (["A", "B", "C"] : List String).Nodup ∧
    (FileImportTool.processIds c6vid ["A", "B", "C"] c6db).fetched = ["B", "C"] ∧
    (FileImportTool.processIds c6vid ["A", "B", "C"] c6db).added =
      [exVideoRowOf "B"] := by
  have honest : ∀ (s : String) (v : VideoRow),
      (FileImportTool.get_video_data c6vid s).1 = some v → v.id = s := by
    intro s v h
    by_cases hs : s = "B"
    · subst hs
      have e : (FileImportTool.get_video_data c6vid "B").1 = some (exVideoRowOf "B") := by
        decide
      rw [e] at h
      cases h
      rfl
    · have e : (FileImportTool.get_video_data c6vid s).1 = none := by
        unfold FileImportTool.get_video_data c6vid
        rw [if_neg hs]
      rw [e] at h
      exact absurd h (by simp)
  have main := C6_process_file_reconciliation c6vid honest ["A", "B", "C"] c6db
    (by decide)
  refine ⟨by decide, ?_, ?_⟩
  · rw [main.1]
    decide
  · rw [main.2.1, main.1]
    decide

/-- Claim C7 counterexample: the same id `X` appears in two input files and
the remote lookup yields no item for it; the run issues the lookup twice
(once per file), so "fetched from the remote service at most once across
the whole run" fails. -/
theorem C7_counterexample :
    (FileImportTool.process_files c7fs c7vidFail ["f1", "f2"] emptyDB).fetched =
      ["X", "X"] ∧
    ¬ ((FileImportTool.process_files c7fs c7vidFail ["f1", "f2"] emptyDB).fetched.count
        "X" ≤ 1) := by
  constructor
  · decide
  · decide

theorem process_files_fetched_count (fs : String → FileInput)
    (vidReq : String → List RawVideo) (x : String)
    (honest : ∀ (s : String) (v : VideoRow),
      (FileImportTool.get_video_data vidReq s).1 = some v → v.id = s)
    (hsucc : ∃ v, (FileImportTool.get_video_data vidReq x).1 = some v) :
    ∀ (paths : List String) (db : DB),
      ((YouTubeDatabase.get_video db x).isSome →
        (FileImportTool.process_files fs vidReq paths db).fetched.count x = 0 ∧
        (YouTubeDatabase.get_video
          (FileImportTool.process_files fs vidReq paths db).db x).isSome) ∧
      (FileImportTool.process_files fs vidReq paths db).fetched.count x ≤ 1 ∧
      ((FileImportTool.process_files fs vidReq paths db).fetched.count x ≥ 1 →
        (YouTubeDatabase.get_video
          (FileImportTool.process_files fs vidReq paths db).db x).isSome) := by
  intro paths
  induction paths with
  | nil =>
    intro db
    refine ⟨fun h => ⟨rfl, h⟩, by simp [FileImportTool.process_files], ?_⟩
    intro h
    simp [FileImportTool.process_files] at h
  | cons p ps ih =>
    intro db
    simp only [FileImportTool.process_files, FileImportTool.process_file,
      List.count_append]
    set ids := (extract_video_ids fs p).1 with hids
    set r := FileImportTool.processIds vidReq ids db with hrdef
    have hcount1 : r.fetched.count x ≤ 1 := by
      have hsub := processIds_fetched_sublist vidReq ids db
      have hnd : r.fetched.Nodup :=
        List.Nodup.sublist hsub (extract_video_ids_nodup fs p)
      exact List.nodup_iff_count_le_one.1 hnd x
    constructor
    · intro hpres
      have hnotin : x ∉ r.fetched := by
        intro hmem
        have := processIds_fetched_absent vidReq ids db x hmem
        rw [this] at hpres
        simp at hpres
      have hc0 : r.fetched.count x = 0 := List.count_eq_zero.2 hnotin
      have hpres2 : (YouTubeDatabase.get_video r.db x).isSome :=
        processIds_preserves_video vidReq ids db x hpres
      have hrest := (ih r.db).1 hpres2
      rw [hc0, hrest.1]
      exact ⟨rfl, hrest.2⟩
    · by_cases hin : x ∈ r.fetched
      · have hpres2 : (YouTubeDatabase.get_video r.db x).isSome :=
          processIds_fetched_present vidReq honest ids db x hin hsucc
        have hrest := (ih r.db).1 hpres2
        rw [hrest.1]
        exact ⟨by omega, fun _ => hrest.2⟩
      · have hc0 : r.fetched.count x = 0 := List.count_eq_zero.2 hin
        have hsame := processIds_not_fetched vidReq honest ids db x hin
        rw [hc0]
        have hrest := ih r.db
        constructor
        · have := hrest.2.1
          omega
        · intro hge
          apply hrest.2.2
          omega

theorem process_files_added_from_fetch (fs : String → FileInput)
    (vidReq : String → List RawVideo) :
    ∀ (paths : List String) (db : DB) (v : VideoRow),
      v ∈ (FileImportTool.process_files fs vidReq paths db).added →
      ∃ i, (FileImportTool.get_video_data vidReq i).1 = some v := by
  intro paths
  induction paths with
  | nil => intro db v hv; simp [FileImportTool.process_files] at hv
  | cons p ps ih =>
    intro db v hv
    simp only [FileImportTool.process_files, FileImportTool.process_file,
      List.mem_append] at hv
    rcases hv with hv | hv
    · exact processIds_added_from_fetch vidReq _ _ v hv
    · exact ih _ v hv

theorem process_files_added_le_fetched (fs : String → FileInput)
    (vidReq : String → List RawVideo) (x : String)
    (honest : ∀ (s : String) (v : VideoRow),
      (FileImportTool.get_video_data vidReq s).1 = some v → v.id = s) :
    ∀ (paths : List String) (db : DB),
      ((FileImportTool.process_files fs vidReq paths db).added.filter
        (fun v => v.id = x)).length ≤
      (FileImportTool.process_files fs vidReq paths db).fetched.count x := by
  intro paths
  induction paths with
  | nil => intro db; simp [FileImportTool.process_files]
  | cons p ps ih =>
    intro db
    simp only [FileImportTool.process_files, FileImportTool.process_file,
      List.count_append, List.filter_append, List.length_append]
    have h1 := processIds_added_count vidReq honest x (extract_video_ids fs p).1 db
    have h2 := ih (FileImportTool.processIds vidReq (extract_video_ids fs p).1 db).db
    omega

/-- Claim C7 (amended): with an honest remote oracle, an id appearing in
several input files is fetched at most once across the whole run provided
its remote lookup yields a record (an id whose lookup yields no record is
looked up again by each later file containing it — see the counterexample);
in every case the combined list of newly added records contains at most one
record per id. -/
theorem C7_duplicate_ids_across_files
    (fs : String → FileInput) (vidReq : String → List RawVideo) (x : String)
    (honest : ∀ (s : String) (v : VideoRow),
      (FileImportTool.get_video_data vidReq s).1 = some v → v.id = s) :
    ∀ (paths : List String) (db : DB),
      ((∃ v, (FileImportTool.get_video_data vidReq x).1 = some v) →
        (FileImportTool.process_files fs vidReq paths db).fetched.count x ≤ 1) ∧
      ((FileImportTool.process_files fs vidReq paths db).added.filter
        (fun v => v.id = x)).length ≤ 1 := by
  intro paths db
  constructor
  · intro hsucc
    exact (process_files_fetched_count fs vidReq x honest hsucc paths db).2.1
  · by_cases hsucc : ∃ v, (FileImportTool.get_video_data vidReq x).1 = some v
    · have h1 := process_files_added_le_fetched fs vidReq x honest paths db
      have h2 := (process_files_fetched_count fs vidReq x honest hsucc paths db).2.1
      omega
    · have hnone : (FileImportTool.get_video_data vidReq x).1 = none := by
        cases h : (FileImportTool.get_video_data vidReq x).1 with
        | none => rfl
        | some v => exact absurd ⟨v, h⟩ hsucc
      have hempty : (FileImportTool.process_files fs vidReq paths db).added.filter
          (fun v => v.id = x) = [] := by
        rw [List.filter_eq_nil_iff]
        intro v hv
        simp only [decide_eq_true_eq]
        intro hvx
        obtain ⟨i, hi⟩ := process_files_added_from_fetch fs vidReq paths db v hv
        have hix : i = x := by rw [← hvx]; exact (honest i v hi).symm
        rw [hix] at hi
        rw [hnone] at hi
        exact absurd hi (by simp)
      rw [hempty]
      simp

/-- Witness for C7: id `X` in both files with a successful lookup — fetched
once, one record in the combined result. -/
theorem C7_duplicate_ids_across_files_witness :
    (FileImportTool.process_files c7fs c7vidOK ["f1", "f2"]
      emptyDB).fetched.count "X" ≤ 1 ∧
    ((FileImportTool.process_files c7fs c7vidOK ["f1", "f2"] emptyDB).added.filter
      (fun v => v.id = "X")).length ≤ 1 := by
  have honest : ∀ (s : String) (v : VideoRow),
      (FileImportTool.get_video_data c7vidOK s).1 = some v → v.id = s := by
    intro s v h
    by_cases hs : s = "X"
    · subst hs
      have e : (FileImportTool.get_video_data c7vidOK "X").1 =
          some (exVideoRowOf "X") := by decide
      rw [e] at h
      cases h
      rfl
    · have e : (FileImportTool.get_video_data c7vidOK s).1 = none := by
        unfold FileImportTool.get_video_data c7vidOK
        rw [if_neg hs]
      rw [e] at h
      exact absurd h (by simp)
  have main := C7_duplicate_ids_across_files c7fs c7vidOK "X" honest ["f1", "f2"]
    emptyDB
  exact ⟨main.1 ⟨exVideoRowOf "X", by decide⟩, main.2⟩

end VPM
